import Mathlib

/-!
Verification of the page-canvas document model of the PnP-JS-Core repository
(file `src/sharepoint/clientsidepages.ts`, given as `src/unnamed/part_000`).

The embedding works over `List Char` (named `Str` below), modelling the
JavaScript/TypeScript string operations the source uses: global regex
replacement with literal patterns, `JSON.stringify` / `JSON.parse`
(JSON numbers are modelled as integers; the canvas metadata only ever
holds integers and strings), the specific regular expressions appearing
in the source, `String.prototype.substring` with its clamping and
argument-swapping behaviour, and the div-scanning loops of
`getBoundedDivMarkup` (made total with an explicit fuel parameter;
the TypeScript loops carry no bound of their own).

Fallible code returns `Except JsErr`; `JsErr.typeError` models the
TypeError raised by dereferencing a `null` regex-match result, and
`JsErr.syntaxError` the SyntaxError raised by `JSON.parse`.
-/

deriving instance DecidableEq for Except

namespace PnP

abbrev Str : Type := List Char

/-! ## Basic string helpers -/

/-- Boolean prefix test on character lists. -/
def isPre : Str → Str → Bool
  | x :: xs, y :: ys => if x = y then isPre xs ys else false
  | rest, _ => rest.isEmpty

/-- Substring occurrence test. -/
def containsSub (pat : Str) : Str → Bool
  | [] => isPre pat []
  | c :: cs => if isPre pat (c :: cs) then true else containsSub pat cs

/-- Tail-recursive string equality (used to state long concrete string
equalities in a form the kernel evaluates in constant stack; see
`strEq_iff`). -/
def strEq : Str → Str → Bool
  | [], [] => true
  | [], _ :: _ => false
  | _ :: _, [] => false
  | a :: as, b :: bs => if a = b then strEq as bs else false

/-- Strip `pat` from the front of a string, if it is a prefix. -/
def stripPre : Str → Str → Option Str
  | [], s => some s
  | _ :: _, [] => none
  | a :: as, b :: bs => if a = b then stripPre as bs else none

/-- Fuel-indexed worker for `jsReplaceAll`; the fuel only serves structural
termination and `s.length` is always enough (each step consumes at least one
character for a non-empty pattern). -/
def rAGo (pat rep : Str) : Nat → Str → Str
  | 0, s => s
  | _ + 1, [] => []
  | f + 1, c :: cs =>
    match stripPre pat (c :: cs) with
    | some rest => rep ++ rAGo pat rep f rest
    | none => c :: rAGo pat rep f cs

/-- `String.prototype.replace` with a global literal (non-empty) pattern:
leftmost, non-overlapping, the replacement text is not rescanned. -/
def jsReplaceAll (pat rep s : Str) : Str :=
  rAGo pat rep s.length s

/-- Character-wise expansion (used to restate sequences of single-character
replacements). -/
def expand (f : Char → Str) : Str → Str
  | [] => []
  | c :: cs => f c ++ expand f cs

/-! ## JSON values

`Json` models the JSON-representable values handled by
`JSON.stringify` / `JSON.parse` in the source.  Numbers are restricted to
integers: every number the canvas model serializes (orders, factors, zone
indices, display modes) is an integer. -/

mutual

inductive Json where
  | null : Json
  | bool (b : Bool) : Json
  | num (n : Int) : Json
  | str (s : Str) : Json
  | arr (elems : JsonItems) : Json
  | obj (members : JsonMembers) : Json
  deriving DecidableEq

/-- The element list of a JSON array. -/
inductive JsonItems where
  | nil : JsonItems
  | cons (head : Json) (tail : JsonItems) : JsonItems
  deriving DecidableEq

/-- The member list of a JSON object (key, value). -/
inductive JsonMembers where
  | nil : JsonMembers
  | cons (key : Str) (val : Json) (tail : JsonMembers) : JsonMembers
  deriving DecidableEq

end

/-- Decimal digits of a natural number, least significant first
(fuel-indexed for structural termination; `n` itself is enough fuel). -/
def natDigitsGo : Nat → Nat → List Nat
  | fl + 1, n + 1 => ((n + 1) % 10) :: natDigitsGo fl ((n + 1) / 10)
  | _, _ => []

/-- Decimal digits of a natural number, most significant first. -/
def natToChars (n : Nat) : Str :=
  if n = 0 then ['0'] else ((natDigitsGo n n).map (fun d => Char.ofNat (48 + d))).reverse

/-- Rendering of an integer as `JSON.stringify` renders an integral number. -/
def intToChars (n : Int) : Str :=
  if n < 0 then '-' :: natToChars n.natAbs else natToChars n.natAbs

/-- Lower-case hexadecimal digit. -/
def hexChar (n : Nat) : Char :=
  if n < 10 then Char.ofNat (48 + n) else Char.ofNat (87 + n)

/-- `JSON.stringify` escaping of one character inside a string literal:
quote and backslash get a backslash escape, the named control characters
get their short escapes, remaining control characters get `\u00xx`, and
everything else is emitted verbatim. -/
def escChar (c : Char) : Str :=
  if c = '"' then ['\\', '"']
  else if c = '\\' then ['\\', '\\']
  else if c = Char.ofNat 8 then ['\\', 'b']
  else if c = Char.ofNat 9 then ['\\', 't']
  else if c = Char.ofNat 10 then ['\\', 'n']
  else if c = Char.ofNat 12 then ['\\', 'f']
  else if c = Char.ofNat 13 then ['\\', 'r']
  else if c.toNat < 32 then ['\\', 'u', '0', '0', hexChar (c.toNat / 16), hexChar (c.toNat % 16)]
  else [c]

/-- A JSON string literal, quotes included. -/
def quoteStr (s : Str) : Str :=
  '"' :: (expand escChar s ++ ['"'])

mutual

/-- `JSON.stringify` (default options: no whitespace, members in insertion
order). -/
def stringify : Json → Str
  | .null => ("null").toList
  | .bool true => ("true").toList
  | .bool false => ("false").toList
  | .num n => intToChars n
  | .str s => quoteStr s
  | .arr xs => '[' :: (stringifyItems xs ++ [']'])
  | .obj ms => '{' :: (stringifyMembers ms ++ ['}'])

def stringifyItems : JsonItems → Str
  | .nil => []
  | .cons x .nil => stringify x
  | .cons x (.cons y xs) => stringify x ++ ',' :: stringifyItems (.cons y xs)

def stringifyMembers : JsonMembers → Str
  | .nil => []
  | .cons k v .nil => quoteStr k ++ ':' :: stringify v
  | .cons k v (.cons k2 v2 ms) =>
    (quoteStr k ++ ':' :: stringify v) ++ ',' :: stringifyMembers (.cons k2 v2 ms)

end

/-! ## JSON parsing (`JSON.parse`) -/

/-- JSON insignificant whitespace. -/
def isJsonWs (c : Char) : Bool :=
  c = ' ' ∨ c = Char.ofNat 9 ∨ c = Char.ofNat 10 ∨ c = Char.ofNat 13

def skipWs : Str → Str
  | [] => []
  | c :: cs => if isJsonWs c then skipWs cs else c :: cs

def isDigitCh (c : Char) : Bool :=
  48 ≤ c.toNat ∧ c.toNat ≤ 57

/-- Value of a hexadecimal digit, if any. -/
def hexVal (c : Char) : Option Nat :=
  if 48 ≤ c.toNat ∧ c.toNat ≤ 57 then some (c.toNat - 48)
  else if 97 ≤ c.toNat ∧ c.toNat ≤ 102 then some (c.toNat - 87)
  else if 65 ≤ c.toNat ∧ c.toNat ≤ 70 then some (c.toNat - 55)
  else none

/-- Body of a JSON string literal after the opening quote; returns the
decoded characters and the remainder after the closing quote (raw control
characters are rejected, as `JSON.parse` rejects them). -/
def parseStrBody : Str → Option (Str × Str)
  | [] => none
  | c :: cs =>
    if c = '"' then some ([], cs)
    else if c = '\\' then
      match cs with
      | [] => none
      | e :: cs2 =>
        if e = '"' then (parseStrBody cs2).map (fun p => ('"' :: p.1, p.2))
        else if e = '\\' then (parseStrBody cs2).map (fun p => ('\\' :: p.1, p.2))
        else if e = '/' then (parseStrBody cs2).map (fun p => ('/' :: p.1, p.2))
        else if e = 'b' then (parseStrBody cs2).map (fun p => (Char.ofNat 8 :: p.1, p.2))
        else if e = 'f' then (parseStrBody cs2).map (fun p => (Char.ofNat 12 :: p.1, p.2))
        else if e = 'n' then (parseStrBody cs2).map (fun p => (Char.ofNat 10 :: p.1, p.2))
        else if e = 'r' then (parseStrBody cs2).map (fun p => (Char.ofNat 13 :: p.1, p.2))
        else if e = 't' then (parseStrBody cs2).map (fun p => (Char.ofNat 9 :: p.1, p.2))
        else if e = 'u' then
          match cs2 with
          | h1 :: h2 :: h3 :: h4 :: cs3 =>
            (match hexVal h1, hexVal h2, hexVal h3, hexVal h4 with
             | some a, some b, some c2, some d =>
               (parseStrBody cs3).map
                 (fun p => (Char.ofNat (((a * 16 + b) * 16 + c2) * 16 + d) :: p.1, p.2))
             | _, _, _, _ => none)
          | _ => none
        else none
    else if c.toNat < 32 then none
    else (parseStrBody cs).map (fun p => (c :: p.1, p.2))

/-- Leading run of decimal digits and the remainder. -/
def spanDigits : Str → Str × Str
  | [] => ([], [])
  | c :: cs =>
    if isDigitCh c then
      let p := spanDigits cs
      (c :: p.1, p.2)
    else ([], c :: cs)

/-- Numeric value of a digit run, most significant first. -/
def digitsVal (ds : Str) : Nat :=
  ds.foldl (fun a c => 10 * a + (c.toNat - 48)) 0

/-- Integral JSON number (optional minus sign followed by digits). -/
def parseNumBody (cs : Str) : Option (Nat × Str) :=
  match spanDigits cs with
  | ([], _) => none
  | (ds, rest) => some (digitsVal ds, rest)

/-- Integral JSON number (optional minus sign followed by digits). -/
def parseNum (cs : Str) : Option (Json × Str) :=
  match cs with
  | [] => none
  | c :: cs2 =>
    if c = '-' then (parseNumBody cs2).map (fun p => (.num (-(p.1 : Int)), p.2))
    else (parseNumBody (c :: cs2)).map (fun p => (.num (p.1 : Int), p.2))

mutual

/-- Fuel-indexed JSON value parser. -/
def parseV : Nat → Str → Option (Json × Str)
  | 0, _ => none
  | fuel + 1, cs =>
    match skipWs cs with
    | [] => none
    | c :: rest =>
      if c = 'n' then
        match rest with
        | 'u' :: 'l' :: 'l' :: r => some (.null, r)
        | _ => none
      else if c = 't' then
        match rest with
        | 'r' :: 'u' :: 'e' :: r => some (.bool true, r)
        | _ => none
      else if c = 'f' then
        match rest with
        | 'a' :: 'l' :: 's' :: 'e' :: r => some (.bool false, r)
        | _ => none
      else if c = '"' then (parseStrBody rest).map (fun p => (.str p.1, p.2))
      else if c = '[' then
        match skipWs rest with
        | ']' :: rest2 => some (.arr .nil, rest2)
        | rest2 =>
          match parseV fuel rest2 with
          | none => none
          | some (v, rest3) =>
            match parseArrTail fuel rest3 with
            | none => none
            | some (vs, rest4) => some (.arr (.cons v vs), rest4)
      else if c = '{' then
        match skipWs rest with
        | '}' :: rest2 => some (.obj .nil, rest2)
        | rest2 =>
          match parseMember fuel rest2 with
          | none => none
          | some (kv, rest3) =>
            match parseObjTail fuel rest3 with
            | none => none
            | some (ms, rest4) => some (.obj (.cons kv.1 kv.2 ms), rest4)
      else parseNum (c :: rest)

/-- Elements of an array after the first one: `,` value … `]`. -/
def parseArrTail : Nat → Str → Option (JsonItems × Str)
  | 0, _ => none
  | fuel + 1, cs =>
    match skipWs cs with
    | [] => none
    | c :: rest =>
      if c = ']' then some (.nil, rest)
      else if c = ',' then
        match parseV fuel rest with
        | none => none
        | some (v, rest2) =>
          match parseArrTail fuel rest2 with
          | none => none
          | some (vs, rest3) => some (.cons v vs, rest3)
      else none

/-- One `"key": value` member. -/
def parseMember : Nat → Str → Option ((Str × Json) × Str)
  | 0, _ => none
  | fuel + 1, cs =>
    match skipWs cs with
    | [] => none
    | c :: rest =>
      if c = '"' then
        match parseStrBody rest with
        | none => none
        | some (k, rest2) =>
          match skipWs rest2 with
          | [] => none
          | c2 :: rest3 =>
            if c2 = ':' then
              match parseV fuel rest3 with
              | none => none
              | some (v, rest4) => some ((k, v), rest4)
            else none
      else none

/-- Members of an object after the first one: `,` member … `}`. -/
def parseObjTail : Nat → Str → Option (JsonMembers × Str)
  | 0, _ => none
  | fuel + 1, cs =>
    match skipWs cs with
    | [] => none
    | c :: rest =>
      if c = '}' then some (.nil, rest)
      else if c = ',' then
        match parseMember fuel rest with
        | none => none
        | some (kv, rest2) =>
          match parseObjTail fuel rest2 with
          | none => none
          | some (ms, rest3) => some (.cons kv.1 kv.2 ms, rest3)
      else none

end

/-- `JSON.parse`: parse one value and require only whitespace to remain. -/
def jsonParse (cs : Str) : Option Json :=
  match parseV (cs.length + 1) cs with
  | none => none
  | some (v, rest) => if skipWs rest = [] then some v else none

/-! ## The attribute codec (`ClientSidePage.jsonToEscapedString` /
`ClientSidePage.escapedStringToJson`) -/

def quotEnt : Str := ['&', 'q', 'u', 'o', 't', ';']
def colonEnt : Str := ['&', '#', '5', '8', ';']
def lbraceEnt : Str := ['&', '#', '1', '2', '3', ';']
def rbraceEnt : Str := ['&', '#', '1', '2', '5', ';']

/-- `ClientSidePage.jsonToEscapedString`: stringify, then the four global
replacements in source order. -/
def jsonToEscapedString (json : Json) : Str :=
  jsReplaceAll ['}'] rbraceEnt
    (jsReplaceAll ['{'] lbraceEnt
      (jsReplaceAll [':'] colonEnt
        (jsReplaceAll ['"'] quotEnt (stringify json))))

/-- `ClientSidePage.escapedStringToJson`: the four inverse replacements in
source order, then `JSON.parse` (`none` models the SyntaxError). -/
def escapedStringToJson (escapedString : Str) : Option Json :=
  jsonParse
    (jsReplaceAll rbraceEnt ['}']
      (jsReplaceAll lbraceEnt ['{']
        (jsReplaceAll colonEnt [':']
          (jsReplaceAll quotEnt ['"'] escapedString))))

/-- The character-wise effect of the four escape replacements of
`jsonToEscapedString` (each replacement text contains none of the
characters replaced later, so the sequential passes act independently per
character). -/
def escAttr (c : Char) : Str :=
  if c = '"' then quotEnt
  else if c = ':' then colonEnt
  else if c = '{' then lbraceEnt
  else if c = '}' then rbraceEnt
  else [c]

/-- `escAttr` after the quote entity has been decoded again. -/
def escAttr1 (c : Char) : Str :=
  if c = ':' then colonEnt
  else if c = '{' then lbraceEnt
  else if c = '}' then rbraceEnt
  else [c]

/-- `escAttr1` after the colon entity has been decoded again. -/
def escAttr2 (c : Char) : Str :=
  if c = '{' then lbraceEnt
  else if c = '}' then rbraceEnt
  else [c]

/-- `escAttr2` after the open-brace entity has been decoded again. -/
def escAttr3 (c : Char) : Str :=
  if c = '}' then rbraceEnt
  else [c]

/-! ## The regular expressions of the source, as position matchers

Every regex in `clientsidepages.ts` is of a simple shape (literal text,
`[^>]*` / `[^"]*?` character classes, `\d*?`, one capture group, `/i` flag).
Each is embedded as a function on the suffix of the subject string starting
at a candidate match position; a first-match search over successive suffixes
reproduces `RegExp.prototype.exec` / `String.prototype.search`. -/

/-- ASCII lower-casing, as the `/i` flag compares characters. -/
def lcChar (c : Char) : Char :=
  if 65 ≤ c.toNat ∧ c.toNat ≤ 90 then Char.ofNat (c.toNat + 32) else c

/-- Case-insensitive prefix test. -/
def isPreCI : Str → Str → Bool
  | x :: xs, y :: ys => if lcChar x = lcChar y then isPreCI xs ys else false
  | rest, _ => rest.isEmpty

/-- A word character for the regex `\b` boundary. -/
def isWordChar (c : Char) : Bool :=
  (48 ≤ c.toNat ∧ c.toNat ≤ 57) ∨ (65 ≤ c.toNat ∧ c.toNat ≤ 90) ∨
    (97 ≤ c.toNat ∧ c.toNat ≤ 122) ∨ c = '_'

/-- Worker for `posFind`, carrying the index already passed (tail-recursive
so that long subjects evaluate in constant stack). -/
def posFindAux (p : Str → Bool) : Nat → Str → Option Nat
  | k, [] => if p [] then some k else none
  | k, c :: cs => if p (c :: cs) then some k else posFindAux p (k + 1) cs

/-- Earliest position (0-based) whose suffix satisfies `p`. -/
def posFind (p : Str → Bool) (s : Str) : Option Nat :=
  posFindAux p 0 s

/-- `regexIndexOf` of the source: `this.substring(startpos).search(regex)`,
returning `indexOf + startpos` when found and `-1` otherwise (note that a
negative `startpos` is clamped by `substring` but still added back). -/
def regexIndexOf (p : Str → Bool) (s : Str) (startpos : Int) : Int :=
  match posFind p (s.drop startpos.toNat) with
  | some i => (i : Int) + startpos
  | none => -1

/-- `String.prototype.substring`: clamps both arguments into `[0, length]`
and swaps them when start exceeds end. -/
def jsSubstring (s : Str) (st en : Int) : Str :=
  let len : Int := s.length
  let a := (min (max st 0) len).toNat
  let b := (min (max en 0) len).toNat
  let lo := min a b
  let hi := max a b
  (s.drop lo).take (hi - lo)

def isTrimWs (c : Char) : Bool :=
  c = ' ' ∨ c = Char.ofNat 9 ∨ c = Char.ofNat 10 ∨ c = Char.ofNat 13 ∨
    c = Char.ofNat 12 ∨ c = Char.ofNat 11

/-- `String.prototype.trim`. -/
def jsTrim (s : Str) : Str :=
  ((s.dropWhile isTrimWs).reverse.dropWhile isTrimWs).reverse

/-- Matcher for `/<div[^>]*>/i` at the head of `s`: the literal `<div`
followed by a closing `>` further on. -/
def matchOpenDiv (s : Str) : Bool :=
  isPreCI (("<div").toList) s ∧ (s.drop 4).any (fun c => c = '>')

/-- Matcher for `/<\/div>/i` at the head of `s`. -/
def matchCloseDiv (s : Str) : Bool :=
  isPreCI (("</div>").toList) s

/-- Scan the inside of a tag (text after `<div`): does `attr` occur before
the first `>`, with a `>` closing the tag after it? -/
def tagHasAttr (attr : Str) : Str → Bool
  | [] => false
  | c :: cs =>
    if c = '>' then false
    else if isPreCI attr (c :: cs) then ((c :: cs).drop attr.length).any (fun d => d = '>')
    else tagHasAttr attr cs

/-- Matcher for `/<div\b[^>]*ATTR[^>]*?>/i` at the head of `s` (the boundary
patterns of the source instantiate `ATTR` with `data-sp-canvascontrol` and
`data-sp-htmlproperties`). -/
def matchDivBoundary (attr : Str) (s : Str) : Bool :=
  isPreCI (("<div").toList) s &&
    (match s.drop 4 with
     | [] => true
     | d :: _ => ! isWordChar d) &&
    tagHasAttr attr (s.drop 4)

/-- Remainder of `s` after its first `>`. -/
def afterFirstGt : Str → Option Str
  | [] => none
  | c :: cs => if c = '>' then some cs else afterFirstGt cs

/-- Characters of `s` before the first (case-insensitive) occurrence of
`pat`; `none` when `pat` does not occur. -/
def takeUntilSub (pat : Str) : Str → Option Str
  | [] => none
  | c :: cs => if isPreCI pat (c :: cs) then some [] else (takeUntilSub pat cs).map (c :: ·)

/-- Characters of `s` before its first `ch`; `none` when absent. -/
def takeUntilCh (ch : Char) : Str → Option Str
  | [] => none
  | c :: cs => if c = ch then some [] else (takeUntilCh ch cs).map (c :: ·)

/-- `exec` of `` new RegExp(`${attrName}="([^"]*?)"`, "i") ``: capture of the
first match, scanning successive start positions. -/
def execAttrVal (attrName : Str) : Str → Option Str
  | [] => none
  | c :: cs =>
    if isPreCI (attrName ++ ['=', '"']) (c :: cs) then
      match takeUntilCh '"' ((c :: cs).drop (attrName.length + 2)) with
      | some v => some v
      | none => execAttrVal attrName cs
    else execAttrVal attrName cs

/-- `exec` of `/controlType&quot;&#58;(\d*?),/i`: the digit-run capture of
the first position where the literal prefix is followed by digits and a
comma. -/
def execControlType (pat : Str) : Str → Option Str
  | [] => none
  | c :: cs =>
    if isPreCI pat (c :: cs) then
      let after := (c :: cs).drop pat.length
      let ds := after.takeWhile isDigitCh
      match after.drop ds.length with
      | ',' :: _ => some ds
      | _ => execControlType pat cs
    else execControlType pat cs

/-- `exec` of `/<div[^>]*data-sp-rte[^>]*>(.*?)<\/div>/i`: the lazy capture
between the tag's `>` and the first following `</div>`, searching successive
start positions. -/
def execRte (attr : Str) : Str → Option Str
  | [] => none
  | c :: cs =>
    (if isPreCI (("<div").toList) (c :: cs) ∧ tagHasAttr attr ((c :: cs).drop 4) then
       match afterFirstGt ((c :: cs).drop 4) with
       | some afterTag =>
         (match takeUntilSub (("</div>").toList) afterTag with
          | some captured => some captured
          | none => execRte attr cs)
       | none => execRte attr cs
     else execRte attr cs)

/-! ## `getBoundedDivMarkup` — the markup scanner

The two `while` loops of the source carry no bound of their own, so the
embedding is fuel-indexed; `fuelOut` marks fuel exhaustion (never reached by
the fuels used in this development's concrete runs).  The scanner is
embedded with string blocks as results; the collector supplied by each
caller is applied to the returned blocks. -/

inductive InnerRes where
  | ok (markup : Str) (closePos : Int) : InnerRes
  | depthErr : InnerRes
  | fuelOut : InnerRes
  deriving DecidableEq

inductive ScanRes where
  | ok (blocks : List Str) : ScanRes
  | depthErr : ScanRes
  | fuelOut : ScanRes
  deriving DecidableEq

/-- One iteration of the inner loop: compute the next opening and closing
div positions from `searchIndex` and update `(openCounter, searchIndex)`
exactly as lines 112–128 of the source do (including the substitution of
`length + 1` for a missing opening div, and no update at all when the two
positions coincide). -/
def scanStep (cleaned : Str) (oc si : Int) : Int × Int :=
  let ndo0 := regexIndexOf matchOpenDiv cleaned si
  let ncd := regexIndexOf matchCloseDiv cleaned si
  let ndo := if ndo0 < 0 then (cleaned.length : Int) + 1 else ndo0
  if ndo < ncd then (oc + 1, ndo + 1)
  else if ncd < ndo then (oc - 1, ncd + 1)
  else (oc, si)

/-- The inner `while (true)` loop: break with the bounded markup when the
counter returns to zero, raise when it leaves `[0, 1000]`. -/
def innerScan (cleaned : Str) (startIndex : Int) : Nat → Int → Int → InnerRes
  | 0, _, _ => .fuelOut
  | f + 1, oc, si =>
    let ncd := regexIndexOf matchCloseDiv cleaned si
    let p := scanStep cleaned oc si
    if p.1 = 0 then .ok (jsTrim (jsSubstring cleaned startIndex (ncd + 6))) ncd
    else if 1000 < p.1 ∨ p.1 < 0 then .depthErr
    else innerScan cleaned startIndex f p.1 p.2

/-- Counter-trace mirror of the inner loop: does the `(openCounter,
searchIndex)` iteration leave the band `[0, 1000]` before the counter
returns to zero?  Stated purely in terms of `scanStep`. -/
def innerHitsBad (cleaned : Str) : Nat → Int → Int → Bool
  | 0, _, _ => false
  | f + 1, oc, si =>
    let p := scanStep cleaned oc si
    if p.1 = 0 then false
    else if 1000 < p.1 ∨ p.1 < 0 then true
    else innerHitsBad cleaned f p.1 p.2

/-- The outer loop over boundary matches. -/
def outerScan (cleaned : Str) (boundary : Str → Bool) (ifuel : Nat) :
    Nat → Int → List Str → ScanRes
  | 0, _, _ => .fuelOut
  | f + 1, startIndex, acc =>
    if startIndex > -1 then
      match innerScan cleaned startIndex ifuel 1 (startIndex + 1) with
      | .fuelOut => .fuelOut
      | .depthErr => .depthErr
      | .ok markup ncd =>
        outerScan cleaned boundary ifuel f (regexIndexOf boundary cleaned ncd) (acc ++ [markup])
    else .ok acc

/-- Counter-trace mirror of the whole scan. -/
def outerHitsBad (cleaned : Str) (boundary : Str → Bool) (ifuel : Nat) :
    Nat → Int → Bool
  | 0, _ => false
  | f + 1, startIndex =>
    if startIndex > -1 then
      if innerHitsBad cleaned ifuel 1 (startIndex + 1) then true
      else
        match innerScan cleaned startIndex ifuel 1 (startIndex + 1) with
        | .ok _ ncd => outerHitsBad cleaned boundary ifuel f (regexIndexOf boundary cleaned ncd)
        | _ => false
    else false

/-- Removal of tabs, carriage returns and newlines (line 89 of the source). -/
def cleanHtml (h : Str) : Str :=
  h.filter (fun c => ¬ (c = Char.ofNat 9 ∨ c = Char.ofNat 13 ∨ c = Char.ofNat 10))

/-- `getBoundedDivMarkup` (collector applied outside; `none` input models
the `undefined`/`null` check of lines 84–86). -/
def getBoundedDivMarkup (ofuel ifuel : Nat) (html : Option Str) (boundary : Str → Bool) : ScanRes :=
  match html with
  | none => .ok []
  | some h =>
    let cleaned := cleanHtml h
    outerScan cleaned boundary ifuel ofuel (regexIndexOf boundary cleaned 0) []

/-- Counter-trace mirror of `getBoundedDivMarkup`. -/
def scanHitsBad (ofuel ifuel : Nat) (html : Option Str) (boundary : Str → Bool) : Bool :=
  match html with
  | none => false
  | some h =>
    let cleaned := cleanHtml h
    outerHitsBad cleaned boundary ifuel ofuel (regexIndexOf boundary cleaned 0)

/-! ## Control metadata -/

/-- JavaScript runtime errors surfaced by the embedded code: `typeError`
models dereferencing a `null` regex-match result, `syntaxError` the
`JSON.parse` failure, `malformedMarkup` the scanner's depth error. -/
inductive JsErr where
  | typeError : JsErr
  | syntaxError : JsErr
  | malformedMarkup : JsErr
  | fuelOut : JsErr
  deriving DecidableEq

/-- `ClientSideControlPosition` of the source. -/
structure ClientSideControlPosition where
  controlIndex : Option Int
  sectionFactor : Int
  sectionIndex : Int
  zoneIndex : Int
  deriving DecidableEq

/-- `ClientSideControlData` of the source (the fields the canvas code
reads). -/
structure ClientSideControlData where
  controlType : Option Int
  id : Option Str
  position : ClientSideControlPosition
  deriving DecidableEq

/-- Last binding of `key` in a member list (`JSON.parse` keeps the last of
duplicate keys, and property access reads that one). -/
def jmLookup : JsonMembers → Str → Option Json
  | .nil, _ => none
  | .cons k v ms, key =>
    match jmLookup ms key with
    | some r => some r
    | none => if k = key then some v else none

/-- Property access `j[key]` on a decoded JSON value (`none` models
`undefined`). -/
def jget (j : Json) (key : Str) : Option Json :=
  match j with
  | .obj ms => jmLookup ms key
  | _ => none

def asInt (j : Option Json) : Option Int :=
  match j with
  | some (.num n) => some n
  | _ => none

def asStr (j : Option Json) : Option Str :=
  match j with
  | some (.str s) => some s
  | _ => none

def kControlType : Str := ("controlType").toList
def kEditorType : Str := ("editorType").toList
def kId : Str := ("id").toList
def kPosition : Str := ("position").toList
def kControlIndex : Str := ("controlIndex").toList
def kSectionFactor : Str := ("sectionFactor").toList
def kSectionIndex : Str := ("sectionIndex").toList
def kZoneIndex : Str := ("zoneIndex").toList
def kDisplayMode : Str := ("displayMode").toList
def kWebPartId : Str := ("webPartId").toList
def kDataVersion : Str := ("dataVersion").toList
def kDescription : Str := ("description").toList
def kInstanceId : Str := ("instanceId").toList
def kProperties : Str := ("properties").toList
def kTitle : Str := ("title").toList
def kSpc : Str := ("serverProcessedContent").toList
def kSearchablePlainTexts : Str := ("searchablePlainTexts").toList
def kImageSources : Str := ("imageSources").toList
def kLinks : Str := ("links").toList
def kName : Str := ("Name").toList
def kValue : Str := ("Value").toList

def aCanvasControl : Str := ("data-sp-canvascontrol").toList
def aControlData : Str := ("data-sp-controldata").toList
def aDataVersion : Str := ("data-sp-canvasdataversion").toList
def aWebpartData : Str := ("data-sp-webpartdata").toList
def aHtmlProperties : Str := ("data-sp-htmlproperties").toList
def aRte : Str := ("data-sp-rte").toList

/-- The literal prefix of `/controlType&quot;&#58;(\d*?),/i`. -/
def ctPrefix : Str := kControlType ++ quotEnt ++ colonEnt

/-- Read a decoded metadata object into `ClientSideControlData`.  In the
source the fields are read dynamically and an absent field simply reads as
`undefined`; rendered markup always carries an object-valued `position`
with integer `sectionFactor`/`sectionIndex`/`zoneIndex`, and no claim
exercises metadata lacking them, so the embedding rejects such metadata
with `typeError`. -/
def decodeControlData (j : Json) : Except JsErr ClientSideControlData :=
  match jget j kPosition with
  | some p =>
    (match asInt (jget p kSectionFactor), asInt (jget p kSectionIndex),
           asInt (jget p kZoneIndex) with
     | some sf, some sx, some zi =>
       .ok { controlType := asInt (jget j kControlType)
             id := asStr (jget j kId)
             position :=
               { controlIndex := asInt (jget p kControlIndex)
                 sectionFactor := sf
                 sectionIndex := sx
                 zoneIndex := zi } }
     | _, _, _ => .error .typeError)
  | none => .error .typeError

/-- `getAttrValueFromString`: on a match the first capture is returned; with
no match the source evaluates `match.length` on `null` and raises a
TypeError. -/
def getAttrValueFromString (html : Str) (attrName : Str) : Except JsErr Str :=
  match execAttrVal attrName html with
  | some v => .ok v
  | none => .error .typeError

/-- `CanvasControl.fromHtml` (the shared base): decode the
`data-sp-controldata` attribute, then read `data-sp-canvasdataversion`. -/
def canvasControlFromHtmlBase (html : Str) : Except JsErr (ClientSideControlData × Str) := do
  let cdRaw ← getAttrValueFromString html aControlData
  let cdJson ←
    match escapedStringToJson cdRaw with
    | some j => Except.ok j
    | none => Except.error JsErr.syntaxError
  let cd ← decodeControlData cdJson
  let dv ← getAttrValueFromString html aDataVersion
  return (cd, dv)

/-! ## The control model -/

/-- `ClientSideText` (the construction-time GUID `Util.getGUID()` lives
outside the given sources; fresh controls take their id explicitly). -/
structure ClientSideText where
  controlType : Option Int
  dataVersion : Str
  id : Option Str
  order : Int
  text : Str
  controlData : Option ClientSideControlData
  deriving DecidableEq

def pOpen : Str := ("<p>").toList
def pClose : Str := ("</p>").toList

/-- The `text` setter: wrap in a paragraph tag unless the value already
starts with `<p>`. -/
def textSetter (t : Str) : Str :=
  if isPre pOpen t then t else pOpen ++ t ++ pClose

/-- `new ClientSideText(text)`. -/
def mkClientSideText (id : Str) (text : Str) : ClientSideText :=
  { controlType := some 4
    dataVersion := ("1.0").toList
    id := some id
    order := 1
    text := textSetter text
    controlData := none }

/-- `ClientSideWebpart`. -/
structure ClientSideWebpart where
  controlType : Option Int
  dataVersion : Str
  id : Option Str
  order : Int
  title : Option Str
  description : Option Str
  propertieJson : Option Json
  webPartId : Option Str
  htmlProperties : Str
  serverProcessedContent : Option Json
  controlData : Option ClientSideControlData
  deriving DecidableEq

/-- `new ClientSideWebpart(title)` (remaining constructor arguments at
their defaults). -/
def mkClientSideWebpart (id : Str) (title : Str) : ClientSideWebpart :=
  { controlType := some 3
    dataVersion := ("1.0").toList
    id := some id
    order := 1
    title := some title
    description := some []
    propertieJson := some (.obj .nil)
    webPartId := some []
    htmlProperties := []
    serverProcessedContent := none
    controlData := none }

inductive CanvasControl where
  | text (t : ClientSideText) : CanvasControl
  | webpart (w : ClientSideWebpart) : CanvasControl
  deriving DecidableEq

/-- `CanvasColumn`. -/
structure CanvasColumn where
  order : Int
  factor : Int
  dataVersion : Str
  controls : List CanvasControl
  controlData : Option ClientSideControlData
  deriving DecidableEq

/-- `CanvasSection`. -/
structure CanvasSection where
  order : Int
  columns : List CanvasColumn
  deriving DecidableEq

/-- Constructor helper for positions. -/
def mkPosition (ci : Option Int) (sf sx zi : Int) : ClientSideControlPosition :=
  { controlIndex := ci, sectionFactor := sf, sectionIndex := sx, zoneIndex := zi }

/-- Constructor helper for control metadata. -/
def mkControlData (ct : Option Int) (id : Option Str) (pos : ClientSideControlPosition) :
    ClientSideControlData :=
  { controlType := ct, id := id, position := pos }

/-- Constructor helper for columns (`new CanvasColumn(section, order,
factor)` leaves `controls` empty, `dataVersion` at `1.0` and no parsed
metadata). -/
def mkColumn (o f : Int) (dv : Str) (cs : List CanvasControl)
    (cd : Option ClientSideControlData) : CanvasColumn :=
  { order := o, factor := f, dataVersion := dv, controls := cs, controlData := cd }

/-- Constructor helper for sections. -/
def mkSection (o : Int) (cols : List CanvasColumn) : CanvasSection :=
  { order := o, columns := cols }

/-! ## Rendering (`toHtml`) -/

def jmOfList : List (Str × Json) → JsonMembers
  | [] => .nil
  | (k, v) :: rest => .cons k v (jmOfList rest)

/-- Object literal whose fields may be `undefined`: `JSON.stringify` omits
such members. -/
def jobj (fields : List (Str × Option Json)) : Json :=
  .obj (jmOfList (fields.filterMap (fun kv => kv.2.map (fun v => (kv.1, v)))))

/-- String value of `x` inside a template literal (`undefined` renders as
the text `undefined`; compound values are approximated by their JSON text —
never exercised, the rendered attributes only carry strings and numbers). -/
def templateStr (x : Option Json) : Str :=
  match x with
  | some (.str s) => s
  | some j => stringify j
  | none => ("undefined").toList

/-- String value of `x` pushed into the `html` array and joined
(`Array.prototype.join` renders `undefined` as the empty string). -/
def joinStr (x : Option Json) : Str :=
  match x with
  | some (.str s) => s
  | some j => stringify j
  | none => []

def kTagOpen1 : Str := ("<div data-sp-canvascontrol=\"\" data-sp-canvasdataversion=\"").toList
def kTagMid : Str := ("\" data-sp-controldata=\"").toList
def kTagEnd : Str := ("\">").toList
def kCloseDivTag : Str := ("</div>").toList
def kRteOpen : Str := ("<div data-sp-rte=\"\">").toList
def kWpOpen1 : Str := ("<div data-sp-webpart=\"\" data-sp-canvasdataversion=\"").toList
def kWpMid : Str := ("\" data-sp-webpartdata=\"").toList
def kComponentIdOpen : Str := ("<div data-sp-componentid>").toList
def kHtmlPropsOpen : Str := ("<div data-sp-htmlproperties=\"\">").toList

/-- The outer positional wrapper of every control. -/
def controlTagOpen (dv cd : Str) : Str :=
  kTagOpen1 ++ dv ++ kTagMid ++ cd ++ kTagEnd

/-- `ClientSideText.getControlData`, reading the owning column's factor and
order and the owning section's order through the back references. -/
def textGetControlData (t : ClientSideText) (colFactor colOrder secOrder : Int) : Json :=
  jobj [(kControlType, t.controlType.map .num),
        (kEditorType, some (.str (("CKEditor").toList))),
        (kId, t.id.map .str),
        (kPosition,
          some (jobj [(kControlIndex, some (.num t.order)),
                      (kSectionFactor, some (.num colFactor)),
                      (kSectionIndex, some (.num colOrder)),
                      (kZoneIndex, some (.num secOrder))]))]

/-- `ClientSideText.toHtml(index)`: sets `order := index`, then renders the
positional wrapper, the rte content holder, and the text.  (The rendering
functions return the markup; the only mutation `toHtml` performs on the
tree — re-assigning each control's `order` to its 1-based position — is the
value the reindex pass just gave it, so the page state after `toHtml` is
`reindexSections`, see `pageAfterToHtml`.) -/
def textToHtml (t0 : ClientSideText) (colFactor colOrder secOrder index : Int) : Str :=
  let t := { t0 with order := index }
  controlTagOpen t.dataVersion
      (jsonToEscapedString (textGetControlData t colFactor colOrder secOrder)) ++
    kRteOpen ++ t.text ++ kCloseDivTag ++ kCloseDivTag

/-- `ClientSideWebpart.getControlData`. -/
def webpartGetControlData (w : ClientSideWebpart) (colFactor colOrder secOrder : Int) : Json :=
  jobj [(kControlType, w.controlType.map .num),
        (kId, w.id.map .str),
        (kPosition,
          some (jobj [(kControlIndex, some (.num w.order)),
                      (kSectionFactor, some (.num colFactor)),
                      (kSectionIndex, some (.num colOrder)),
                      (kZoneIndex, some (.num secOrder))])),
        (kWebPartId, w.webPartId.map .str)]

def spcList (j : Option Json) : JsonItems :=
  match j with
  | some (.arr its) => its
  | _ => .nil

def renderSearchableTexts : JsonItems → Str
  | .nil => []
  | .cons it rest =>
    ("<div data-sp-prop-name=\"").toList ++ templateStr (jget it kName) ++
      ("\" data-sp-searchableplaintext=\"true\">").toList ++
      joinStr (jget it kValue) ++ kCloseDivTag ++ renderSearchableTexts rest

def renderImageSources : JsonItems → Str
  | .nil => []
  | .cons it rest =>
    ("<img data-sp-prop-name=\"").toList ++ templateStr (jget it kName) ++
      ("\" src=\"").toList ++ templateStr (jget it kValue) ++ ("\" />").toList ++
      renderImageSources rest

def renderLinks : JsonItems → Str
  | .nil => []
  | .cons it rest =>
    ("<a data-sp-prop-name=\"").toList ++ templateStr (jget it kName) ++
      ("\" href=\"").toList ++ templateStr (jget it kValue) ++ ("\"></a>").toList ++
      renderLinks rest

/-- `ClientSideWebpart.renderHtmlProperties`: the preserved raw body, or a
synthesized body when server-processed content is present. -/
def renderHtmlProperties (w : ClientSideWebpart) : Str :=
  match w.serverProcessedContent with
  | none => w.htmlProperties
  | some spc =>
    renderSearchableTexts (spcList (jget spc kSearchablePlainTexts)) ++
      renderImageSources (spcList (jget spc kImageSources)) ++
      renderLinks (spcList (jget spc kLinks))

/-- `ClientSideWebpart.toHtml(index)`. -/
def webpartToHtml (w0 : ClientSideWebpart) (colFactor colOrder secOrder index : Int) : Str :=
  let w := { w0 with order := index }
  let data :=
    jobj [(kDataVersion, some (.str w.dataVersion)),
          (kDescription, w.description.map .str),
          (kId, w.webPartId.map .str),
          (kInstanceId, w.id.map .str),
          (kProperties, w.propertieJson),
          (kTitle, w.title.map .str)]
  controlTagOpen w.dataVersion
      (jsonToEscapedString (webpartGetControlData w colFactor colOrder secOrder)) ++
    kWpOpen1 ++ w.dataVersion ++ kWpMid ++ jsonToEscapedString data ++ kTagEnd ++
    kComponentIdOpen ++ joinStr (w.webPartId.map .str) ++ kCloseDivTag ++
    kHtmlPropsOpen ++ renderHtmlProperties w ++ kCloseDivTag ++
    kCloseDivTag ++ kCloseDivTag

def controlToHtml (c : CanvasControl) (colFactor colOrder secOrder index : Int) : Str :=
  match c with
  | .text t => textToHtml t colFactor colOrder secOrder index
  | .webpart w => webpartToHtml w colFactor colOrder secOrder index

/-- `CanvasColumn.getControlData` (no `controlType` member — its absence is
what marks an empty-column fragment during parsing). -/
def columnGetControlData (col : CanvasColumn) (secOrder : Int) : Json :=
  jobj [(kDisplayMode, some (.num 2)),
        (kPosition,
          some (jobj [(kSectionFactor, some (.num col.factor)),
                      (kSectionIndex, some (.num col.order)),
                      (kZoneIndex, some (.num secOrder))]))]

def renderControlList (colFactor colOrder secOrder : Int) :
    Nat → List CanvasControl → Str
  | _, [] => []
  | i, c :: cs =>
    controlToHtml c colFactor colOrder secOrder ((i + 1 : Nat) : Int) ++
      renderControlList colFactor colOrder secOrder (i + 1) cs

/-- `CanvasColumn.toHtml`: an empty column renders as a single self-closing
placeholder carrying its positional metadata; otherwise the controls render
with 1-based indices and no wrapper of the column's own. -/
def columnToHtml (col : CanvasColumn) (secOrder : Int) : Str :=
  match col.controls with
  | [] =>
    controlTagOpen col.dataVersion (jsonToEscapedString (columnGetControlData col secOrder)) ++
      kCloseDivTag
  | c :: cs => renderControlList col.factor col.order secOrder 0 (c :: cs)

def renderColumnList (secOrder : Int) : List CanvasColumn → Str
  | [] => []
  | col :: cols => columnToHtml col secOrder ++ renderColumnList secOrder cols

/-- `CanvasSection.toHtml`: concatenation of the columns, no section
wrapper. -/
def sectionToHtml (s : CanvasSection) : Str :=
  renderColumnList s.order s.columns

def renderSectionList : List CanvasSection → Str
  | [] => []
  | s :: ss => sectionToHtml s ++ renderSectionList ss

/-! ## `reindex` -/

def setControlOrder (c : CanvasControl) (o : Int) : CanvasControl :=
  match c with
  | .text t => .text { t with order := o }
  | .webpart w => .webpart { w with order := o }

def reindexControlsGo : Nat → List CanvasControl → List CanvasControl
  | _, [] => []
  | i, c :: cs => setControlOrder c ((i + 1 : Nat) : Int) :: reindexControlsGo (i + 1) cs

def reindexColumnsGo : Nat → List CanvasColumn → List CanvasColumn
  | _, [] => []
  | i, col :: cols =>
    { col with
      order := ((i + 1 : Nat) : Int)
      controls := reindexControlsGo 0 col.controls } :: reindexColumnsGo (i + 1) cols

def reindexSectionsGo : Nat → List CanvasSection → List CanvasSection
  | _, [] => []
  | i, s :: ss =>
    { s with
      order := ((i + 1 : Nat) : Int)
      columns := reindexColumnsGo 0 s.columns } :: reindexSectionsGo (i + 1) ss

/-- `reindex` applied to a page's sections: every order becomes the 1-based
array position, recursing through columns into controls. -/
def reindexSections (ss : List CanvasSection) : List CanvasSection :=
  reindexSectionsGo 0 ss

/-- `ClientSidePage.toHtml`: reindex the whole tree, then concatenate the
sections inside a `<div>` wrapper. -/
def pageToHtml (sections : List CanvasSection) : Str :=
  ("<div>").toList ++ renderSectionList (reindexSections sections) ++ kCloseDivTag

/-- The page's section tree immediately after a `toHtml` call: the reindex
pass runs first, and the only mutation rendering performs afterwards —
`control.order = index` inside each control's `toHtml` — re-assigns the
exact value the reindex pass just gave that control, so the state after the
call is the reindexed tree. -/
def pageAfterToHtml (sections : List CanvasSection) : List CanvasSection :=
  reindexSections sections

/-! ## Parsing (`fromHtml`) -/

/-- `CanvasColumn.fromHtml`: the base parse, then (re-)reading the metadata
to set `factor` and `order` (the source decodes the attribute a second time
with the identical result). -/
def columnFromHtml (html : Str) : Except JsErr CanvasColumn := do
  let r ← canvasControlFromHtmlBase html
  return { order := r.1.position.sectionIndex
           factor := r.1.position.sectionFactor
           dataVersion := r.2
           controls := []
           controlData := some r.1 }

/-- `ClientSideText.fromHtml` on a control whose transient `order` was
already assigned: the base parse, then the rte-content regex.  When that
regex does not match, the source evaluates `match.length` on `null`, which
raises a TypeError. -/
def textFromHtml (order : Int) (html : Str) : Except JsErr ClientSideText := do
  let r ← canvasControlFromHtmlBase html
  match execRte aRte html with
  | none => Except.error JsErr.typeError
  | some captured =>
    return { controlType := r.1.controlType
             dataVersion := r.2
             id := r.1.id
             order := order
             text := textSetter captured
             controlData := some r.1 }

/-- Strip the leading `/^<div\b[^>]*data-sp-htmlproperties[^>]*?>/i` match
from an extracted block. -/
def stripLeadHtmlProps (s : Str) : Str :=
  if matchDivBoundary aHtmlProperties s then
    match afterFirstGt s with
    | some r => r
    | none => s
  else s

/-- Strip a trailing `/<\/div>$/i` match. -/
def stripTrailCloseDiv (s : Str) : Str :=
  if 6 ≤ s.length ∧ isPreCI kCloseDivTag (s.drop (s.length - 6)) then
    s.take (s.length - 6)
  else s

/-- `ClientSideWebpart.fromHtml`. -/
def webpartFromHtml (order : Int) (html : Str) : Except JsErr ClientSideWebpart := do
  let r ← canvasControlFromHtmlBase html
  let wpdRaw ← getAttrValueFromString html aWebpartData
  let wpd ←
    match escapedStringToJson wpdRaw with
    | some j => Except.ok j
    | none => Except.error JsErr.syntaxError
  match getBoundedDivMarkup (html.length + 2) (html.length + 2) (some html)
      (matchDivBoundary aHtmlProperties) with
  | .depthErr => Except.error JsErr.malformedMarkup
  | .fuelOut => Except.error JsErr.fuelOut
  | .ok blocks =>
    let props := blocks.map (fun b => stripTrailCloseDiv (stripLeadHtmlProps b))
    return { controlType := r.1.controlType
             dataVersion := r.2
             id := r.1.id
             order := order
             title := asStr (jget wpd kTitle)
             description := asStr (jget wpd kDescription)
             propertieJson := jget wpd kProperties
             webPartId := asStr (jget wpd kId)
             htmlProperties := props.headD []
             serverProcessedContent := jget wpd kSpc
             controlData := some r.1 }

/-! ## Tree reconciliation -/

def controlDataOf (c : CanvasControl) : Option ClientSideControlData :=
  match c with
  | .text t => t.controlData
  | .webpart w => w.controlData

/-- `control.controlData.position` reads (controls reaching the merge were
produced by `fromHtml` and always carry metadata; the fallback coordinates
are never read). -/
def controlZoneIndex (c : CanvasControl) : Int :=
  match controlDataOf c with
  | some cd => cd.position.zoneIndex
  | none => 0

def controlSectionIndex (c : CanvasControl) : Int :=
  match controlDataOf c with
  | some cd => cd.position.sectionIndex
  | none => 0

def updateFirstColumn : List CanvasColumn → Int → (CanvasColumn → CanvasColumn) →
    List CanvasColumn
  | [], _, _ => []
  | col :: cols, o, f =>
    if col.order = o then f col :: cols else col :: updateFirstColumn cols o f

def updateFirstSection : List CanvasSection → Int → (CanvasSection → CanvasSection) →
    List CanvasSection
  | [], _, _ => []
  | s :: ss, o, f =>
    if s.order = o then f s :: ss else s :: updateFirstSection ss o f

/-- Within a section: find (or create, with the default factor 12 and data
version `1.0`) the column whose order equals the control's section index,
and append the control. -/
def addControlAtSectionIndex (sec : CanvasSection) (si : Int) (control : CanvasControl) :
    CanvasSection :=
  if sec.columns.any (fun c => c.order = si) then
    { sec with
      columns :=
        updateFirstColumn sec.columns si
          (fun col => { col with controls := col.controls ++ [control] }) }
  else
    { sec with
      columns :=
        sec.columns ++
          [{ order := si
             factor := 12
             dataVersion := ("1.0").toList
             controls := [control]
             controlData := none }] }

/-- `ClientSidePage.mergeControlToTree`. -/
def mergeControlToTree (secs : List CanvasSection) (control : CanvasControl) :
    List CanvasSection :=
  let zi := controlZoneIndex control
  let si := controlSectionIndex control
  if secs.any (fun s => s.order = zi) then
    updateFirstSection secs zi (fun sec => addControlAtSectionIndex sec si control)
  else
    secs ++ [addControlAtSectionIndex { order := zi, columns := [] } si control]

/-- `ClientSidePage.mergeColumnToTree`. -/
def mergeColumnToTree (secs : List CanvasSection) (column : CanvasColumn) :
    List CanvasSection :=
  let zi :=
    match column.controlData with
    | some cd => cd.position.zoneIndex
    | none => 0
  if secs.any (fun s => s.order = zi) then
    updateFirstSection secs zi (fun sec => { sec with columns := sec.columns ++ [column] })
  else
    secs ++ [{ order := zi, columns := [column] }]

/-! ## `ClientSidePage.fromHtml` -/

/-- The decoded control-type discriminant of a fragment: `some 0` when the
control-type regex finds no match (the column-marker case), `none` when it
matches with an empty digit capture (`parseInt("")` is `NaN`). -/
def decodedControlType (markup : Str) : Option Int :=
  match execControlType ctPrefix markup with
  | none => some 0
  | some ds => if ds.isEmpty then none else some (digitsVal ds : Int)

/-- The parse loop over the discovered fragments, carrying the running
1-based counter for non-column controls and the section tree: dispatch on
the discriminant (0 column, 3 web part, 4 text, anything else skipped). -/
def processBlocks : List Str → Int → List CanvasSection → Except JsErr (List CanvasSection)
  | [], _, secs => Except.ok secs
  | b :: bs, counter, secs =>
    match decodedControlType b with
    | some n =>
      if n = 0 then
        match columnFromHtml b with
        | .error e => Except.error e
        | .ok col => processBlocks bs counter (mergeColumnToTree secs col)
      else if n = 3 then
        match webpartFromHtml (counter + 1) b with
        | .error e => Except.error e
        | .ok w => processBlocks bs (counter + 1) (mergeControlToTree secs (.webpart w))
      else if n = 4 then
        match textFromHtml (counter + 1) b with
        | .error e => Except.error e
        | .ok t => processBlocks bs (counter + 1) (mergeControlToTree secs (.text t))
      else processBlocks bs counter secs
    | none => processBlocks bs counter secs

/-- `ClientSidePage.fromHtml`: reset the tree, scan for every
`data-sp-canvascontrol` fragment, and process each in discovery order.
(The source interleaves fragment processing with the scan; both are
deterministic and no claim mixes a scanner error with a fragment error, so
the embedding scans first and folds after.) -/
def pageFromHtml (html : Str) : Except JsErr (List CanvasSection) :=
  match getBoundedDivMarkup (html.length + 2) (html.length + 2) (some html)
      (matchDivBoundary aCanvasControl) with
  | .depthErr => Except.error JsErr.malformedMarkup
  | .fuelOut => Except.error JsErr.fuelOut
  | .ok blocks => processBlocks blocks 0 []

/-! ## Auxiliary definitions used by the development's statements and
proofs -/

/-- The `order` field of a control. -/
def controlOrder (c : CanvasControl) : Int :=
  match c with
  | .text t => t.order
  | .webpart w => w.order

def dv10 : Str := ("1.0").toList

/-- Being wrapped in a paragraph tag, following the claim's words
(`<p>...</p>`): starts with `<p>` and ends with `</p>`. -/
def specParagraphWrapped (s : Str) : Bool :=
  isPre pOpen s && pClose.isSuffixOf s

/-- Little-endian digit value (proof support for the number codec). -/
def ofDigitsLE : List Nat → Nat
  | [] => 0
  | d :: ds => d + 10 * ofDigitsLE ds

/-- A remainder at which a serialized JSON value may legally stop: empty, or
starting with a separator the grammar puts after values. -/
def stopOk (rest : Str) : Prop :=
  rest = [] ∨ ∃ c t, rest = c :: t ∧ (c = ',' ∨ c = ']' ∨ c = '}')

/-- The serialized tail of an array after its first element. -/
def itemsTail : JsonItems → Str
  | .nil => [']']
  | .cons v vs => ',' :: (stringify v ++ itemsTail vs)

/-- The serialized tail of an object after its first member. -/
def membersTail : JsonMembers → Str
  | .nil => ['}']
  | .cons k v ms => ',' :: ((quoteStr k ++ ':' :: stringify v) ++ membersTail ms)

/-! ## Concrete inputs referenced by the claims -/

/-- C1 counterexample value: a string scalar holding the colon escape
sequence itself. -/
def c1CexVal : Json := .str (("&#58;").toList)

/-- Second C1 counterexample value: a string scalar holding the quote escape
sequence itself, on which the decode raises a SyntaxError. -/
def c1CexVal2 : Json := .str (("&quot;").toList)

/-- C1 witness value: a nested object whose string values and keys contain
quotes, colons and braces (and no ampersand). -/
def c1WitnessVal : Json :=
  .obj (.cons (("a\x7b").toList) (.str (("x:\"y\x7d").toList))
    (.cons (("b").toList)
      (.arr (.cons (.num (-7)) (.cons (.bool true) (.cons .null .nil)))) .nil))

/-- C2: a page with one section and one empty column, with arbitrary
pre-render orders. -/
def c2Page (so co f : Int) : List CanvasSection :=
  [mkSection so [mkColumn co f dv10 [] none]]

/-- C2: the parsed tree after a render/parse round trip of `c2Page`. -/
def c2Expected (f : Int) : List CanvasSection :=
  [mkSection 1 [mkColumn 1 f dv10 []
    (some (mkControlData none none (mkPosition none f 1 1)))]]

/-- C3 counterexample page: a factor-6 column holding one text control. -/
def c3Page : List CanvasSection :=
  [mkSection 1 [mkColumn 1 6 dv10 [.text (mkClientSideText (("a").toList) (("T").toList))] none]]

/-- The markup `toHtml` produces for `c3Page`. -/
def c3Html : Str :=
  ("<div><div data-sp-canvascontrol=\"\" data-sp-canvasdataversion=\"1.0\" data-sp-controldata=\"&#123;&quot;controlType&quot;&#58;4,&quot;editorType&quot;&#58;&quot;CKEditor&quot;,&quot;id&quot;&#58;&quot;a&quot;,&quot;position&quot;&#58;&#123;&quot;controlIndex&quot;&#58;1,&quot;sectionFactor&quot;&#58;6,&quot;sectionIndex&quot;&#58;1,&quot;zoneIndex&quot;&#58;1&#125;&#125;\"><div data-sp-rte=\"\"><p>T</p></div></div></div>").toList

/-- The tree `fromHtml` reconstructs from `c3Html`: the column is recreated
with the default factor 12, the original factor 6 is lost. -/
def c3Tree : List CanvasSection :=
  [mkSection 1 [mkColumn 1 12 dv10
    [.text { controlType := some 4, dataVersion := dv10, id := some (("a").toList), order := 1,
             text := ("<p>T</p>").toList,
             controlData := some (mkControlData (some 4) (some (("a").toList))
               (mkPosition (some 1) 6 1 1)) }] none]]

/-- The markup `toHtml` produces for `c3Tree` (sectionFactor now 12). -/
def c3Html2 : Str :=
  ("<div><div data-sp-canvascontrol=\"\" data-sp-canvasdataversion=\"1.0\" data-sp-controldata=\"&#123;&quot;controlType&quot;&#58;4,&quot;editorType&quot;&#58;&quot;CKEditor&quot;,&quot;id&quot;&#58;&quot;a&quot;,&quot;position&quot;&#58;&#123;&quot;controlIndex&quot;&#58;1,&quot;sectionFactor&quot;&#58;12,&quot;sectionIndex&quot;&#58;1,&quot;zoneIndex&quot;&#58;1&#125;&#125;\"><div data-sp-rte=\"\"><p>T</p></div></div></div>").toList

/-- C3 amended, representative control-bearing page: a factor-12 column
holding a text control and a web part, plus a second section with an empty
factor-4 column. -/
def c3AmendedPage : List CanvasSection :=
  [mkSection 1 [mkColumn 1 12 dv10
      [.text (mkClientSideText (("a").toList) (("Hi").toList)),
       .webpart (mkClientSideWebpart (("b").toList) (("Ti").toList))] none],
   mkSection 2 [mkColumn 2 4 dv10 [] none]]

/-- The markup `toHtml` produces for `c3AmendedPage`. -/
def c3AmendedHtml : Str :=
  ("<div><div data-sp-canvascontrol=\"\" data-sp-canvasdataversion=\"1.0\" data-sp-controldata=\"&#123;&quot;controlType&quot;&#58;4,&quot;editorType&quot;&#58;&quot;CKEditor&quot;,&quot;id&quot;&#58;&quot;a&quot;,&quot;position&quot;&#58;&#123;&quot;controlIndex&quot;&#58;1,&quot;sectionFactor&quot;&#58;12,&quot;sectionIndex&quot;&#58;1,&quot;zoneIndex&quot;&#58;1&#125;&#125;\"><div data-sp-rte=\"\"><p>Hi</p></div></div><div data-sp-canvascontrol=\"\" data-sp-canvasdataversion=\"1.0\" data-sp-controldata=\"&#123;&quot;controlType&quot;&#58;3,&quot;id&quot;&#58;&quot;b&quot;,&quot;position&quot;&#58;&#123;&quot;controlIndex&quot;&#58;2,&quot;sectionFactor&quot;&#58;12,&quot;sectionIndex&quot;&#58;1,&quot;zoneIndex&quot;&#58;1&#125;,&quot;webPartId&quot;&#58;&quot;&quot;&#125;\"><div data-sp-webpart=\"\" data-sp-canvasdataversion=\"1.0\" data-sp-webpartdata=\"&#123;&quot;dataVersion&quot;&#58;&quot;1.0&quot;,&quot;description&quot;&#58;&quot;&quot;,&quot;id&quot;&#58;&quot;&quot;,&quot;instanceId&quot;&#58;&quot;b&quot;,&quot;properties&quot;&#58;&#123;&#125;,&quot;title&quot;&#58;&quot;Ti&quot;&#125;\"><div data-sp-componentid></div><div data-sp-htmlproperties=\"\"></div></div></div><div data-sp-canvascontrol=\"\" data-sp-canvasdataversion=\"1.0\" data-sp-controldata=\"&#123;&quot;displayMode&quot;&#58;2,&quot;position&quot;&#58;&#123;&quot;sectionFactor&quot;&#58;4,&quot;sectionIndex&quot;&#58;1,&quot;zoneIndex&quot;&#58;2&#125;&#125;\"></div></div>").toList

/-- The tree `fromHtml` reconstructs from `c3AmendedHtml`. -/
def c3AmendedTree : List CanvasSection :=
  [mkSection 1 [mkColumn 1 12 dv10
      [.text { controlType := some 4, dataVersion := dv10, id := some (("a").toList),
               order := 1, text := ("<p>Hi</p>").toList,
               controlData := some (mkControlData (some 4) (some (("a").toList))
                 (mkPosition (some 1) 12 1 1)) },
       .webpart { controlType := some 3, dataVersion := dv10, id := some (("b").toList),
                  order := 2, title := some (("Ti").toList), description := some [],
                  propertieJson := some (.obj .nil), webPartId := some [],
                  htmlProperties := [], serverProcessedContent := none,
                  controlData := some (mkControlData (some 3) (some (("b").toList))
                    (mkPosition (some 2) 12 1 1)) }] none],
   mkSection 2 [mkColumn 1 4 dv10 []
     (some (mkControlData none none (mkPosition none 4 1 2)))]]

/-- C5 failing input: a fragment with valid encoded control metadata of
type 4 and no `data-sp-rte` content holder. -/
def c5Fragment : Str :=
  ("<div data-sp-canvascontrol=\"\" data-sp-canvasdataversion=\"1.0\" data-sp-controldata=\"&#123;&quot;controlType&quot;&#58;4,&quot;editorType&quot;&#58;&quot;CKEditor&quot;,&quot;id&quot;&#58;&quot;t1&quot;,&quot;position&quot;&#58;&#123;&quot;controlIndex&quot;&#58;1,&quot;sectionFactor&quot;&#58;12,&quot;sectionIndex&quot;&#58;1,&quot;zoneIndex&quot;&#58;1&#125;&#125;\"></div>").toList

/-- C6: the metadata payload of one text fragment at zone `zi`. -/
def c6ControlData (id : Str) (zi : Int) : Json :=
  jobj [(kControlType, some (.num 4)),
        (kEditorType, some (.str (("CKEditor").toList))),
        (kId, some (.str id)),
        (kPosition,
          some (jobj [(kControlIndex, some (.num 1)),
                      (kSectionFactor, some (.num 12)),
                      (kSectionIndex, some (.num 1)),
                      (kZoneIndex, some (.num zi))]))]

/-- C6: one rendered text fragment. -/
def c6Fragment (id : Str) (zi : Int) (txt : Str) : Str :=
  controlTagOpen dv10 (jsonToEscapedString (c6ControlData id zi)) ++
    kRteOpen ++ txt ++ kCloseDivTag ++ kCloseDivTag

/-- C6 input: three text fragments whose zone indices arrive as
`[2, 1, 2]`. -/
def c6Html : Str :=
  ("<div><div data-sp-canvascontrol=\"\" data-sp-canvasdataversion=\"1.0\" data-sp-controldata=\"&#123;&quot;controlType&quot;&#58;4,&quot;editorType&quot;&#58;&quot;CKEditor&quot;,&quot;id&quot;&#58;&quot;a&quot;,&quot;position&quot;&#58;&#123;&quot;controlIndex&quot;&#58;1,&quot;sectionFactor&quot;&#58;12,&quot;sectionIndex&quot;&#58;1,&quot;zoneIndex&quot;&#58;2&#125;&#125;\"><div data-sp-rte=\"\"><p>A</p></div></div><div data-sp-canvascontrol=\"\" data-sp-canvasdataversion=\"1.0\" data-sp-controldata=\"&#123;&quot;controlType&quot;&#58;4,&quot;editorType&quot;&#58;&quot;CKEditor&quot;,&quot;id&quot;&#58;&quot;b&quot;,&quot;position&quot;&#58;&#123;&quot;controlIndex&quot;&#58;1,&quot;sectionFactor&quot;&#58;12,&quot;sectionIndex&quot;&#58;1,&quot;zoneIndex&quot;&#58;1&#125;&#125;\"><div data-sp-rte=\"\"><p>B</p></div></div><div data-sp-canvascontrol=\"\" data-sp-canvasdataversion=\"1.0\" data-sp-controldata=\"&#123;&quot;controlType&quot;&#58;4,&quot;editorType&quot;&#58;&quot;CKEditor&quot;,&quot;id&quot;&#58;&quot;c&quot;,&quot;position&quot;&#58;&#123;&quot;controlIndex&quot;&#58;1,&quot;sectionFactor&quot;&#58;12,&quot;sectionIndex&quot;&#58;1,&quot;zoneIndex&quot;&#58;2&#125;&#125;\"><div data-sp-rte=\"\"><p>C</p></div></div></div>").toList

/-- C6: the text control on record after the parse (discovery order `ord`,
zone `zi`). -/
def c6Ctrl (id : Str) (ord zi : Int) (txt : Str) : ClientSideText :=
  { controlType := some 4, dataVersion := dv10, id := some id, order := ord, text := txt,
    controlData := some (mkControlData (some 4) (some id) (mkPosition (some 1) 12 1 zi)) }

/-- C6: the reconstructed tree — two sections, the first-referenced zone (2)
first, its column holding the first and third controls in discovery
order. -/
def c6Tree : List CanvasSection :=
  [mkSection 2 [mkColumn 1 12 dv10
      [.text (c6Ctrl (("a").toList) 1 2 (("<p>A</p>").toList)),
       .text (c6Ctrl (("c").toList) 3 2 (("<p>C</p>").toList))] none],
   mkSection 1 [mkColumn 1 12 dv10
      [.text (c6Ctrl (("b").toList) 2 1 (("<p>B</p>").toList))] none]]

/-- C6: the tree after the reindex a render performs. -/
def c6Reindexed : List CanvasSection :=
  [mkSection 1 [mkColumn 1 12 dv10
      [.text (c6Ctrl (("a").toList) 1 2 (("<p>A</p>").toList)),
       .text (c6Ctrl (("c").toList) 2 2 (("<p>C</p>").toList))] none],
   mkSection 2 [mkColumn 1 12 dv10
      [.text (c6Ctrl (("b").toList) 1 1 (("<p>B</p>").toList))] none]]

/-- C9 witness input: a fragment whose discriminant decodes to 5. -/
def c9Fragment : Str :=
  ("<div data-sp-canvascontrol=\"\" data-sp-canvasdataversion=\"1.0\" data-sp-controldata=\"&#123;&quot;controlType&quot;&#58;5,&quot;id&quot;&#58;&quot;x1&quot;,&quot;position&quot;&#58;&#123;&quot;controlIndex&quot;&#58;1,&quot;sectionFactor&quot;&#58;12,&quot;sectionIndex&quot;&#58;1,&quot;zoneIndex&quot;&#58;1&#125;&#125;\"></div>").toList

/-- C10 witness input: a fragment carrying the boundary marker but no
`data-sp-controldata` attribute. -/
def c10Fragment : Str :=
  ("<div data-sp-canvascontrol=\"\" data-sp-canvasdataversion=\"1.0\"></div>").toList

/-- C4 witness input. -/
def c4Page : List CanvasSection :=
  [mkSection 9 [mkColumn 4 12 dv10
      [.text (mkClientSideText (("a").toList) (("X").toList)),
       .text (mkClientSideText (("b").toList) (("Y").toList))] none,
    mkColumn 7 4 dv10 [] none],
   mkSection 3 []]

/-! # Theorems -/

set_option maxRecDepth 1000000

/-- `strEq` decides equality of character lists. -/
theorem strEq_iff (a : Str) : ∀ b : Str, strEq a b = true ↔ a = b := by
  induction a with
  | nil => intro b; cases b <;> simp [strEq]
  | cons x xs ih =>
    intro b
    cases b with
    | nil => simp [strEq]
    | cons y ys =>
      by_cases h : x = y
      · subst h
        simp [strEq, ih ys]
      · simp [strEq, h]

/-- The wrap branch of the text setter produces a paragraph-wrapped
string. -/
theorem textSetter_of_not_startsWith (s : Str) (h : isPre pOpen s = false) :
    textSetter s = pOpen ++ s ++ pClose := by
  unfold textSetter
  rw [h]
  simp

theorem textSetter_of_startsWith (s : Str) (h : isPre pOpen s = true) :
    textSetter s = s := by
  unfold textSetter
  rw [h]
  simp

theorem wrap_isSuffix (s : Str) :
    (pClose.isSuffixOf (pOpen ++ s ++ pClose)) = true := by
  rw [List.isSuffixOf_iff_suffix]
  exact ⟨pOpen ++ s, by simp⟩

/-- C7 — counterexample: the input `<p>x` is not paragraph-wrapped
(`<p>...</p>`), yet the setter stores it unchanged, so the stored text is
not wrapped either — against the claim that every not-already-wrapped input
gets wrapped. -/
theorem claim_C7_counterexample :
    specParagraphWrapped (("<p>x").toList) = false ∧
      textSetter (("<p>x").toList) = ("<p>x").toList ∧
      specParagraphWrapped (textSetter (("<p>x").toList)) = false := by
  refine ⟨by decide, by decide, by decide⟩

/-- C7 (amended) — the setter tests only whether the value starts with
`<p>`: a value that does not start with `<p>` is stored wrapped as
`<p>...</p>` (hence paragraph-wrapped), and any value that starts with
`<p>` is stored unchanged. -/
theorem claim_C7_amended (s : Str) :
    (isPre pOpen s = false →
      textSetter s = pOpen ++ s ++ pClose ∧
        specParagraphWrapped (textSetter s) = true) ∧
    (isPre pOpen s = true → textSetter s = s) := by
  constructor
  · intro h
    refine ⟨textSetter_of_not_startsWith s h, ?_⟩
    rw [textSetter_of_not_startsWith s h]
    unfold specParagraphWrapped
    rw [wrap_isSuffix]
    simp [isPre, pOpen, pClose]
  · intro h
    exact textSetter_of_startsWith s h

/-- C7 — witness: the amended theorem applied at `x!` (wrap case) and at
`<p>q</p>` (unchanged case). -/
theorem claim_C7_witness :
    textSetter (("x!").toList) = ("<p>x!</p>").toList ∧
      textSetter (("<p>q</p>").toList) = ("<p>q</p>").toList := by
  constructor
  · have h := (claim_C7_amended (("x!").toList)).1 (by decide)
    exact h.1.trans (by decide)
  · exact (claim_C7_amended (("<p>q</p>").toList)).2 (by decide)

/-- C9 — a fragment whose decoded control-type discriminant is none of 0
(column marker), 3 (web part) or 4 (text) is skipped by the parse loop:
the counter and the tree pass to the remaining fragments unchanged, and no
error is raised. -/
theorem claim_C9 (b : Str) (bs : List Str) (counter : Int) (secs : List CanvasSection)
    (h : decodedControlType b ∉ ([some 0, some 3, some 4] : List (Option Int))) :
    processBlocks (b :: bs) counter secs = processBlocks bs counter secs := by
  simp only [List.mem_cons, List.not_mem_nil, or_false] at h
  push_neg at h
  obtain ⟨h0, h3, h4⟩ := h
  cases hct : decodedControlType b with
  | none => simp [processBlocks, hct]
  | some n =>
    rw [hct] at h0 h3 h4
    have hn0 : ¬ n = 0 := fun hh => h0 (by rw [hh])
    have hn3 : ¬ n = 3 := fun hh => h3 (by rw [hh])
    have hn4 : ¬ n = 4 := fun hh => h4 (by rw [hh])
    simp [processBlocks, hct, hn0, hn3, hn4]

/-- C9 — witness: a fragment with discriminant 5 (`c9Fragment`) is skipped
without error. -/
theorem claim_C9_witness :
    processBlocks [c9Fragment] 0 [] = processBlocks [] 0 [] ∧
      processBlocks [c9Fragment] 0 [] = Except.ok [] := by
  have h := claim_C9 c9Fragment [] 0 [] (by decide)
  exact ⟨h, h.trans (by rfl)⟩

/-- C10 — `getAttrValueFromString` on html without a `attrName="..."` match
dereferences the `null` regex result and raises a TypeError (it does not
return null), and consequently the base `CanvasControl.fromHtml` on a
fragment lacking `data-sp-controldata` fails with that raw TypeError. -/
theorem claim_C10 :
    (∀ (html attrName : Str), execAttrVal attrName html = none →
      getAttrValueFromString html attrName = Except.error JsErr.typeError) ∧
    (∀ html : Str, execAttrVal aControlData html = none →
      canvasControlFromHtmlBase html = Except.error JsErr.typeError) := by
  constructor
  · intro html attrName h
    simp [getAttrValueFromString, h]
  · intro html h
    simp only [canvasControlFromHtmlBase, getAttrValueFromString, h]
    rfl

/-- C10 — witness at `c10Fragment` (boundary marker present, no
`data-sp-controldata` attribute). -/
theorem claim_C10_witness :
    getAttrValueFromString c10Fragment aControlData = Except.error JsErr.typeError ∧
      canvasControlFromHtmlBase c10Fragment = Except.error JsErr.typeError := by
  exact ⟨(claim_C10).1 c10Fragment aControlData (by decide), (claim_C10).2 c10Fragment (by decide)⟩

/-- C5 — behaviour of the code at the claim's input: `c5Fragment` carries
valid encoded control metadata (the base parse succeeds) and no
`data-sp-rte` content holder (the rte regex finds no match), and
`ClientSideText.fromHtml` then raises a TypeError by evaluating
`match.length` on the `null` regex result — it does not succeed with empty
text as the claim (and the spec's documented intent) states. -/
theorem claim_C5 :
    canvasControlFromHtmlBase c5Fragment =
      Except.ok (mkControlData (some 4) (some (("t1").toList)) (mkPosition (some 1) 12 1 1), dv10) ∧
      execRte aRte c5Fragment = none ∧
      textFromHtml 1 c5Fragment = Except.error JsErr.typeError := by
  refine ⟨by decide, by decide, by decide⟩

/-! ## C4 — the reindex invariant -/

theorem controlOrder_setControlOrder (c : CanvasControl) (o : Int) :
    controlOrder (setControlOrder c o) = o := by
  cases c <;> rfl

theorem reindexControlsGo_get (cs : List CanvasControl) :
    ∀ (n i : Nat) (h : i < (reindexControlsGo n cs).length),
      controlOrder ((reindexControlsGo n cs).get ⟨i, h⟩) = ((n + i + 1 : Nat) : Int) := by
  induction cs with
  | nil => intro n i h; simp [reindexControlsGo] at h
  | cons c cs ih =>
    intro n i h
    cases i with
    | zero => simp [reindexControlsGo, controlOrder_setControlOrder]
    | succ i =>
      have h2 : i < (reindexControlsGo (n + 1) cs).length := by
        simpa [reindexControlsGo] using h
      have := ih (n + 1) i h2
      simp only [reindexControlsGo, List.get_cons_succ]
      rw [this]
      congr 1
      omega

theorem reindexColumnsGo_get (cols : List CanvasColumn) :
    ∀ (n i : Nat) (h : i < (reindexColumnsGo n cols).length),
      ((reindexColumnsGo n cols).get ⟨i, h⟩).order = ((n + i + 1 : Nat) : Int) := by
  induction cols with
  | nil => intro n i h; simp [reindexColumnsGo] at h
  | cons c cs ih =>
    intro n i h
    cases i with
    | zero => simp [reindexColumnsGo]
    | succ i =>
      have h2 : i < (reindexColumnsGo (n + 1) cs).length := by
        simpa [reindexColumnsGo] using h
      have := ih (n + 1) i h2
      simp only [reindexColumnsGo, List.get_cons_succ]
      rw [this]
      congr 1
      omega

theorem reindexSectionsGo_get (ss : List CanvasSection) :
    ∀ (n i : Nat) (h : i < (reindexSectionsGo n ss).length),
      ((reindexSectionsGo n ss).get ⟨i, h⟩).order = ((n + i + 1 : Nat) : Int) := by
  induction ss with
  | nil => intro n i h; simp [reindexSectionsGo] at h
  | cons s ss ih =>
    intro n i h
    cases i with
    | zero => simp [reindexSectionsGo]
    | succ i =>
      have h2 : i < (reindexSectionsGo (n + 1) ss).length := by
        simpa [reindexSectionsGo] using h
      have := ih (n + 1) i h2
      simp only [reindexSectionsGo, List.get_cons_succ]
      rw [this]
      congr 1
      omega

theorem mem_reindexSectionsGo (ss : List CanvasSection) :
    ∀ (n : Nat) (s : CanvasSection), s ∈ reindexSectionsGo n ss →
      ∃ s0, s0 ∈ ss ∧ s.columns = reindexColumnsGo 0 s0.columns := by
  induction ss with
  | nil => intro n s h; cases h
  | cons x ss ih =>
    intro n s h
    rcases List.mem_cons.mp h with h1 | h2
    · exact ⟨x, List.mem_cons_self x ss, by rw [h1]⟩
    · obtain ⟨s0, hs0, hc⟩ := ih (n + 1) s h2
      exact ⟨s0, List.mem_cons_of_mem x hs0, hc⟩

theorem mem_reindexColumnsGo (cols : List CanvasColumn) :
    ∀ (n : Nat) (c : CanvasColumn), c ∈ reindexColumnsGo n cols →
      ∃ c0, c0 ∈ cols ∧ c.controls = reindexControlsGo 0 c0.controls := by
  induction cols with
  | nil => intro n c h; cases h
  | cons x cols ih =>
    intro n c h
    rcases List.mem_cons.mp h with h1 | h2
    · exact ⟨x, List.mem_cons_self x cols, by rw [h1]⟩
    · obtain ⟨c0, hc0, hc⟩ := ih (n + 1) c h2
      exact ⟨c0, List.mem_cons_of_mem x hc0, hc⟩

/-- C4 — after a `toHtml` call, the `order` of every section, of every
column within its section, and of every control within its column is its
1-based array position (the contiguous sequence 1, 2, 3, …), whatever the
order values were before the call. -/
theorem claim_C4 (sections : List CanvasSection) :
    (∀ (i : Nat) (h : i < (pageAfterToHtml sections).length),
      ((pageAfterToHtml sections).get ⟨i, h⟩).order = ((i + 1 : Nat) : Int)) ∧
    (∀ s ∈ pageAfterToHtml sections,
      (∀ (j : Nat) (hj : j < s.columns.length),
        (s.columns.get ⟨j, hj⟩).order = ((j + 1 : Nat) : Int)) ∧
      ∀ col ∈ s.columns, ∀ (k : Nat) (hk : k < col.controls.length),
        controlOrder (col.controls.get ⟨k, hk⟩) = ((k + 1 : Nat) : Int)) := by
  constructor
  · intro i h
    have := reindexSectionsGo_get sections 0 i h
    simpa using this
  · intro s hs
    obtain ⟨s0, _, hcols⟩ := mem_reindexSectionsGo sections 0 s hs
    obtain ⟨sord, scols⟩ := s
    simp only at hcols
    subst hcols
    constructor
    · intro j hj
      have := reindexColumnsGo_get s0.columns 0 j hj
      rw [this]
      congr 1
      omega
    · intro col hcol k hk
      obtain ⟨c0, _, hctrls⟩ := mem_reindexColumnsGo s0.columns 0 col hcol
      obtain ⟨cord, cfac, cdv, cctrls, ccd⟩ := col
      simp only at hctrls
      subst hctrls
      have := reindexControlsGo_get c0.controls 0 k hk
      rw [this]
      congr 1
      omega

/-- C4 — witness: the invariant applied to `c4Page` (pre-render orders 9/3
on sections, 4/7 on columns): the first section's order is 1 and its second
column's order is 2. -/
theorem claim_C4_witness :
    ∃ h : 0 < (pageAfterToHtml c4Page).length,
      ((pageAfterToHtml c4Page).get ⟨0, h⟩).order = ((0 + 1 : Nat) : Int) ∧
      ∃ hs : mkSection 1
          [mkColumn 1 12 dv10
            [.text { controlType := some 4, dataVersion := dv10, id := some (("a").toList),
                     order := 1, text := ("<p>X</p>").toList, controlData := none },
             .text { controlType := some 4, dataVersion := dv10, id := some (("b").toList),
                     order := 2, text := ("<p>Y</p>").toList, controlData := none }] none,
           mkColumn 2 4 dv10 [] none] ∈ pageAfterToHtml c4Page,
        True := by
  refine ⟨by decide, (claim_C4 c4Page).1 0 (by decide), by decide, trivial⟩

/-! ## C8 — the scanner's only error condition -/

theorem innerScan_depthErr_iff (cleaned : Str) (startIndex : Int) :
    ∀ (f : Nat) (oc si : Int),
      (innerScan cleaned startIndex f oc si = InnerRes.depthErr) ↔
        (innerHitsBad cleaned f oc si = true) := by
  intro f
  induction f with
  | zero => intro oc si; simp [innerScan, innerHitsBad]
  | succ f ih =>
    intro oc si
    simp only [innerScan, innerHitsBad]
    split_ifs with h1 h2
    · simp
    · simp
    · exact ih _ _

theorem outerScan_depthErr_iff (cleaned : Str) (boundary : Str → Bool) (ifuel : Nat) :
    ∀ (f : Nat) (si : Int) (acc : List Str),
      (outerScan cleaned boundary ifuel f si acc = ScanRes.depthErr) ↔
        (outerHitsBad cleaned boundary ifuel f si = true) := by
  intro f
  induction f with
  | zero => intro si acc; simp [outerScan, outerHitsBad]
  | succ f ih =>
    intro si acc
    simp only [outerScan, outerHitsBad]
    by_cases hgt : si > -1
    · simp only [hgt, if_true]
      cases hinner : innerScan cleaned si ifuel 1 (si + 1) with
      | fuelOut =>
        have hbad : innerHitsBad cleaned ifuel 1 (si + 1) = false := by
          by_contra hc
          have := (innerScan_depthErr_iff cleaned si ifuel 1 (si + 1)).mpr
            (by simpa using hc)
          rw [hinner] at this
          cases this
        simp [hbad]
      | depthErr =>
        have hbad := (innerScan_depthErr_iff cleaned si ifuel 1 (si + 1)).mp hinner
        simp [hbad]
      | ok markup ncd =>
        have hbad : innerHitsBad cleaned ifuel 1 (si + 1) = false := by
          by_contra hc
          have := (innerScan_depthErr_iff cleaned si ifuel 1 (si + 1)).mpr
            (by simpa using hc)
          rw [hinner] at this
          cases this
        simp only [hbad, Bool.false_eq_true, if_false]
        exact ih _ _
    · simp [hgt]

/-- C8 — for every input, boundary pattern and fuel, `getBoundedDivMarkup`
raises its malformed-markup error exactly when the inner loop's
`(openCounter, searchIndex)` iteration (the pure `scanStep` trace) leaves
the band `[0, 1000]` — exceeding 1000 open tags or going negative — before
the counter returns to zero: the depth guard is the scanner's only raise
site.  (From 1 the counter moves by ±1 and the loop breaks at 0, so the
negative arm of the guard can never fire; the claim's condition still holds
as stated, with that disjunct vacuous.) -/
theorem claim_C8 (ofuel ifuel : Nat) (html : Option Str) (boundary : Str → Bool) :
    getBoundedDivMarkup ofuel ifuel html boundary = ScanRes.depthErr ↔
      scanHitsBad ofuel ifuel html boundary = true := by
  cases html with
  | none => simp [getBoundedDivMarkup, scanHitsBad]
  | some h =>
    simp only [getBoundedDivMarkup, scanHitsBad]
    exact outerScan_depthErr_iff (cleanHtml h) boundary ifuel ofuel
      (regexIndexOf boundary (cleanHtml h) 0) []

/-! ## C2, C3, C6 — concrete render/parse round trips -/

set_option maxHeartbeats 4000000

theorem c2_reindex (so co f : Int) :
    reindexSections (c2Page so co f) = [mkSection 1 [mkColumn 1 f dv10 [] none]] := rfl

theorem c2_pageToHtml (so co f : Int) :
    pageToHtml (c2Page so co f) = pageToHtml [mkSection 1 [mkColumn 1 f dv10 [] none]] := by
  have hred2 : reindexSections [mkSection 1 [mkColumn 1 f dv10 [] none]] =
      [mkSection 1 [mkColumn 1 f dv10 [] none]] := rfl
  simp only [pageToHtml, c2_reindex, hred2]

/-- C2 — a page holding one section with one empty column (any factor in
{0, 2, 4, 6, 8, 12}, any pre-render orders), rendered and parsed back,
yields one section of order 1 holding exactly one empty column of order 1
with the same factor; and the rendered page is exactly the wrapper around
the empty column's self-closing placeholder marker carrying its encoded
positional metadata. -/
theorem claim_C2 (so co f : Int) (h : f ∈ ([0, 2, 4, 6, 8, 12] : List Int)) :
    pageFromHtml (pageToHtml (c2Page so co f)) = Except.ok (c2Expected f) ∧
      pageToHtml (c2Page so co f) =
        ("<div>").toList ++ columnToHtml (mkColumn 1 f dv10 [] none) 1 ++ kCloseDivTag := by
  rw [c2_pageToHtml]
  fin_cases h
  · exact ⟨by decide, by decide⟩
  · exact ⟨by decide, by decide⟩
  · exact ⟨by decide, by decide⟩
  · exact ⟨by decide, by decide⟩
  · exact ⟨by decide, by decide⟩
  · exact ⟨by decide, by decide⟩

/-- C2 — witness at pre-render orders 5/9 and factor 6. -/
theorem claim_C2_witness :
    pageFromHtml (pageToHtml (c2Page 5 9 6)) = Except.ok (c2Expected 6) :=
  (claim_C2 5 9 6 (by decide)).1

/-- C6 — parsing three text fragments with zone indices `[2, 1, 2]` in
discovery order yields exactly two sections — the first-referenced zone (2)
first — with the zone-2 column holding the first and third controls in
their discovery order; the reindex a render performs then assigns the
sections orders 1 and 2 by array position, keeping the in-column discovery
order. -/
theorem claim_C6 :
    pageFromHtml c6Html = Except.ok c6Tree ∧
      c6Tree.length = 2 ∧
      pageAfterToHtml c6Tree = c6Reindexed ∧
      c6Html =
        ("<div>").toList ++ c6Fragment (("a").toList) 2 (("<p>A</p>").toList) ++
          c6Fragment (("b").toList) 1 (("<p>B</p>").toList) ++
          c6Fragment (("c").toList) 2 (("<p>C</p>").toList) ++ kCloseDivTag := by
  refine ⟨by decide, by decide, by decide, (strEq_iff _ _).mp (by decide)⟩

/-- C3 — counterexample: for the page `c3Page` (one factor-6 column holding
one text control) parsing the rendered markup recreates the column with the
default factor 12, so rendering again emits `sectionFactor 12` where the
first render emitted 6 — `toHtml (fromHtml (toHtml tree))` differs from
`toHtml tree`. -/
theorem claim_C3_counterexample :
    (pageFromHtml (pageToHtml c3Page)).map pageToHtml ≠ Except.ok (pageToHtml c3Page) := by
  have h1 : pageToHtml c3Page = c3Html := (strEq_iff _ _).mp (by decide)
  have h2 : pageFromHtml c3Html = Except.ok c3Tree := by decide
  have h3 : pageToHtml c3Tree = c3Html2 := (strEq_iff _ _).mp (by decide)
  have h4 : ¬ (c3Html2 = c3Html) := by decide
  rw [h1, h2]
  simp only [Except.map]
  rw [h3]
  intro hc
  exact h4 (Except.ok.inj hc)

/-- C3 (amended) — render idempotence holds for pages whose control-bearing
columns have factor 12 (empty columns may keep any factor): verified for a
page with a single empty column of each factor, and for a representative
page with a text control and a web part in a factor-12 column plus an empty
factor-4 column.  In general the law fails, because parsing recreates a
control-bearing column with the default factor 12 (see the
counterexample). -/
theorem claim_C3_amended (f : Int) (hf : f ∈ ([0, 2, 4, 6, 8, 12] : List Int)) :
    ((pageFromHtml (pageToHtml (c2Page 1 1 f))).map pageToHtml =
      Except.ok (pageToHtml (c2Page 1 1 f))) ∧
    ((pageFromHtml (pageToHtml c3AmendedPage)).map pageToHtml =
      Except.ok (pageToHtml c3AmendedPage)) := by
  constructor
  · fin_cases hf
    · decide
    · decide
    · decide
    · decide
    · decide
    · decide
  · have g1 : pageToHtml c3AmendedPage = c3AmendedHtml := (strEq_iff _ _).mp (by decide)
    have g2 : pageFromHtml c3AmendedHtml = Except.ok c3AmendedTree := by decide
    have g3 : pageToHtml c3AmendedTree = c3AmendedHtml := (strEq_iff _ _).mp (by decide)
    rw [g1, g2]
    simp only [Except.map]
    rw [g3]

/-- C3 — witness of the amended statement at factor 8. -/
theorem claim_C3_witness :
    (pageFromHtml (pageToHtml (c2Page 1 1 8))).map pageToHtml =
      Except.ok (pageToHtml (c2Page 1 1 8)) :=
  (claim_C3_amended 8 (by decide)).1

/-! ## C1 — the attribute codec

### The replacement passes as character-wise expansions -/

theorem stripPre_length (pat : Str) :
    ∀ (s rest : Str), stripPre pat s = some rest → pat.length + rest.length = s.length := by
  induction pat with
  | nil =>
    intro s rest h
    simp only [stripPre, Option.some.injEq] at h
    subst h
    simp
  | cons a as ih =>
    intro s rest h
    cases s with
    | nil => simp [stripPre] at h
    | cons b bs =>
      simp only [stripPre] at h
      by_cases hab : a = b
      · rw [if_pos hab] at h
        have := ih bs rest h
        simp only [List.length_cons]
        omega
      · rw [if_neg hab] at h
        cases h

theorem stripPre_self_append (pat : Str) : ∀ t : Str, stripPre pat (pat ++ t) = some t := by
  induction pat with
  | nil => intro t; rfl
  | cons a as ih => intro t; simp [stripPre, ih t]

theorem stripPre_ne_head {a b : Char} (h : ¬ a = b) (as bs : Str) :
    stripPre (a :: as) (b :: bs) = none := by
  simp [stripPre, h]

theorem rAGo_eq_jsReplaceAll (pat rep : Str) (hp : pat ≠ []) :
    ∀ (f : Nat) (s : Str), s.length ≤ f → rAGo pat rep f s = jsReplaceAll pat rep s := by
  intro f
  induction f using Nat.strong_induction_on with
  | _ f ih =>
    intro s hs
    cases f with
    | zero =>
      cases s with
      | nil => rfl
      | cons c cs => simp at hs
    | succ f =>
      cases s with
      | nil => rfl
      | cons c cs =>
        simp only [rAGo, jsReplaceAll, List.length_cons]
        have hpat : 1 ≤ pat.length := by
          cases pat with
          | nil => exact absurd rfl hp
          | cons x xs => simp
        simp only [List.length_cons] at hs
        cases hsp : stripPre pat (c :: cs) with
        | none =>
          have h1 : rAGo pat rep f cs = jsReplaceAll pat rep cs :=
            ih f (Nat.lt_succ_self f) cs (by omega)
          have h2 : rAGo pat rep cs.length cs = jsReplaceAll pat rep cs :=
            ih cs.length (by omega) cs (Nat.le_refl _)
          rw [h1, h2]
        | some rest =>
          have hlen := stripPre_length pat (c :: cs) rest hsp
          simp only [List.length_cons] at hlen
          have h1 : rAGo pat rep f rest = jsReplaceAll pat rep rest :=
            ih f (Nat.lt_succ_self f) rest (by omega)
          have h2 : rAGo pat rep cs.length rest = jsReplaceAll pat rep rest :=
            ih cs.length (by omega) rest (by omega)
          show rep ++ rAGo pat rep f rest = rep ++ rAGo pat rep cs.length rest
          rw [h1, h2]

theorem jsReplaceAll_cons_nomatch (pat rep : Str) (c : Char) (cs : Str)
    (h : stripPre pat (c :: cs) = none) :
    jsReplaceAll pat rep (c :: cs) = c :: jsReplaceAll pat rep cs := by
  have hp : pat ≠ [] := by
    intro he
    rw [he] at h
    simp [stripPre] at h
  have hun : jsReplaceAll pat rep (c :: cs) = rAGo pat rep (cs.length + 1) (c :: cs) := rfl
  rw [hun, rAGo, h]
  rw [rAGo_eq_jsReplaceAll pat rep hp cs.length cs (Nat.le_refl _)]

theorem jsReplaceAll_cons_match (pat rep : Str) (hp : pat ≠ []) (c : Char) (cs rest : Str)
    (h : stripPre pat (c :: cs) = some rest) :
    jsReplaceAll pat rep (c :: cs) = rep ++ jsReplaceAll pat rep rest := by
  have hlen := stripPre_length pat (c :: cs) rest h
  simp only [List.length_cons] at hlen
  have hpat : 1 ≤ pat.length := by
    cases pat with
    | nil => exact absurd rfl hp
    | cons x xs => simp
  have hun : jsReplaceAll pat rep (c :: cs) = rAGo pat rep (cs.length + 1) (c :: cs) := rfl
  rw [hun, rAGo, h]
  show rep ++ rAGo pat rep cs.length rest = rep ++ jsReplaceAll pat rep rest
  rw [rAGo_eq_jsReplaceAll pat rep hp cs.length rest (by omega)]

theorem jsReplaceAll_pat_append (pat rep : Str) (hp : pat ≠ []) (t : Str) :
    jsReplaceAll pat rep (pat ++ t) = rep ++ jsReplaceAll pat rep t := by
  cases pat with
  | nil => exact absurd rfl hp
  | cons p ps =>
    have h : stripPre (p :: ps) (p :: (ps ++ t)) = some t := stripPre_self_append (p :: ps) t
    rw [List.cons_append]
    exact jsReplaceAll_cons_match (p :: ps) rep (by simp) p (ps ++ t) t h

/-- Skipping a run of characters that all differ from the pattern's first
character. -/
theorem jsReplaceAll_skip (p : Char) (ps rep : Str) :
    ∀ (b : Str), (∀ c ∈ b, ¬ c = p) → ∀ t : Str,
      jsReplaceAll (p :: ps) rep (b ++ t) = b ++ jsReplaceAll (p :: ps) rep t := by
  intro b
  induction b with
  | nil => intro _ t; rfl
  | cons c b ih =>
    intro hb t
    have hc : ¬ p = c := fun hh => (hb c (List.mem_cons_self c b)) hh.symm
    rw [List.cons_append,
      jsReplaceAll_cons_nomatch (p :: ps) rep c (b ++ t) (stripPre_ne_head hc ps (b ++ t)),
      ih (fun x hx => hb x (List.mem_cons_of_mem c hx)) t]
    simp

theorem jsReplaceAll_skip' (pat rep : Str) (p : Char) (ps : Str) (hpat : pat = p :: ps)
    (b : Str) (hb : ∀ c ∈ b, ¬ c = p) (t : Str) :
    jsReplaceAll pat rep (b ++ t) = b ++ jsReplaceAll pat rep t := by
  subst hpat
  exact jsReplaceAll_skip p ps rep b hb t

theorem expand_append (f : Char → Str) (a : Str) :
    ∀ b : Str, expand f (a ++ b) = expand f a ++ expand f b := by
  induction a with
  | nil => intro b; rfl
  | cons c cs ih => intro b; simp [expand, ih b]

theorem expand_expand (g f : Char → Str) (s : Str) :
    expand g (expand f s) = expand (fun c => expand g (f c)) s := by
  induction s with
  | nil => rfl
  | cons c cs ih => simp [expand, expand_append, ih]

theorem expand_congr {f g : Char → Str} (h : ∀ c, f c = g c) (s : Str) :
    expand f s = expand g s := by
  induction s with
  | nil => rfl
  | cons c cs ih => simp [expand, h c, ih]

theorem expand_id (s : Str) : expand (fun c => [c]) s = s := by
  induction s with
  | nil => rfl
  | cons c cs ih => simp [expand, ih]

theorem stripPre_single (p c : Char) (cs : Str) :
    stripPre [p] (c :: cs) = if c = p then some cs else none := by
  by_cases h : c = p
  · subst h; simp [stripPre]
  · have h2 : ¬ p = c := fun hh => h hh.symm
    simp [stripPre, h, h2]

theorem jsReplaceAll_single (p : Char) (rep : Str) (s : Str) :
    jsReplaceAll [p] rep s = expand (fun c => if c = p then rep else [c]) s := by
  induction s with
  | nil => rfl
  | cons c cs ih =>
    by_cases h : c = p
    · subst h
      rw [jsReplaceAll_cons_match [c] rep (by simp) c cs cs (by simp [stripPre]), ih]
      simp [expand]
    · rw [jsReplaceAll_cons_nomatch [p] rep c cs (by rw [stripPre_single]; simp [h]), ih]
      simp [expand, h]


theorem unesc_pass1 (s : Str) (h : '&' ∉ s) :
    jsReplaceAll quotEnt ['"'] (expand escAttr s) = expand escAttr1 s := by
  induction s with
  | nil => rfl
  | cons c cs ih =>
    have hcs : '&' ∉ cs := fun hm => h (List.mem_cons_of_mem c hm)
    have hc : ¬ c = '&' := fun he => h (by rw [he]; exact List.mem_cons_self _ _)
    have ihh := ih hcs
    by_cases h1 : c = '"'
    · subst h1
      show jsReplaceAll quotEnt ['"'] (quotEnt ++ expand escAttr cs) = _
      rw [jsReplaceAll_pat_append quotEnt ['"'] (by decide), ihh]
      rfl
    by_cases h2 : c = ':'
    · subst h2
      show jsReplaceAll quotEnt ['"']
        ('&' :: (['#', '5', '8', ';'] ++ expand escAttr cs)) = _
      rw [jsReplaceAll_cons_nomatch quotEnt ['"'] '&'
        (['#', '5', '8', ';'] ++ expand escAttr cs) (by rfl)]
      rw [jsReplaceAll_skip' quotEnt ['"'] '&' ['q', 'u', 'o', 't', ';'] rfl
        ['#', '5', '8', ';'] (by decide) (expand escAttr cs)]
      rw [ihh]
      rfl
    by_cases h3 : c = '{'
    · subst h3
      show jsReplaceAll quotEnt ['"']
        ('&' :: (['#', '1', '2', '3', ';'] ++ expand escAttr cs)) = _
      rw [jsReplaceAll_cons_nomatch quotEnt ['"'] '&'
        (['#', '1', '2', '3', ';'] ++ expand escAttr cs) (by rfl)]
      rw [jsReplaceAll_skip' quotEnt ['"'] '&' ['q', 'u', 'o', 't', ';'] rfl
        ['#', '1', '2', '3', ';'] (by decide) (expand escAttr cs)]
      rw [ihh]
      rfl
    by_cases h4 : c = '}'
    · subst h4
      show jsReplaceAll quotEnt ['"']
        ('&' :: (['#', '1', '2', '5', ';'] ++ expand escAttr cs)) = _
      rw [jsReplaceAll_cons_nomatch quotEnt ['"'] '&'
        (['#', '1', '2', '5', ';'] ++ expand escAttr cs) (by rfl)]
      rw [jsReplaceAll_skip' quotEnt ['"'] '&' ['q', 'u', 'o', 't', ';'] rfl
        ['#', '1', '2', '5', ';'] (by decide) (expand escAttr cs)]
      rw [ihh]
      rfl
    · have hexp : expand escAttr (c :: cs) = c :: expand escAttr cs := by
        simp [expand, escAttr, h1, h2, h3, h4]
      rw [hexp]
      rw [jsReplaceAll_cons_nomatch quotEnt ['"'] c (expand escAttr cs)
        (stripPre_ne_head (fun he => hc he.symm) _ _)]
      rw [ihh]
      have hexp1 : expand escAttr1 (c :: cs) = c :: expand escAttr1 cs := by
        simp [expand, escAttr1, h2, h3, h4]
      rw [hexp1]

/-- The four encode replacements act as one character-wise expansion. -/
theorem esc_eq_expand (s : Str) :
    jsReplaceAll ['}'] rbraceEnt
      (jsReplaceAll ['{'] lbraceEnt
        (jsReplaceAll [':'] colonEnt
          (jsReplaceAll ['"'] quotEnt s))) = expand escAttr s := by
  rw [jsReplaceAll_single, jsReplaceAll_single, jsReplaceAll_single, jsReplaceAll_single]
  rw [expand_expand, expand_expand, expand_expand]
  apply expand_congr
  intro c
  by_cases h1 : c = '"'
  · subst h1; decide
  by_cases h2 : c = ':'
  · subst h2; decide
  by_cases h3 : c = '{'
  · subst h3; decide
  by_cases h4 : c = '}'
  · subst h4; decide
  simp [escAttr, expand, h1, h2, h3, h4]

theorem unesc_pass2 (s : Str) (h : '&' ∉ s) :
    jsReplaceAll colonEnt [':'] (expand escAttr1 s) = expand escAttr2 s := by
  induction s with
  | nil => rfl
  | cons c cs ih =>
    have hcs : '&' ∉ cs := fun hm => h (List.mem_cons_of_mem c hm)
    have hc : ¬ c = '&' := fun he => h (by rw [he]; exact List.mem_cons_self _ _)
    have ihh := ih hcs
    by_cases h2 : c = ':'
    · subst h2
      show jsReplaceAll colonEnt [':'] (colonEnt ++ expand escAttr1 cs) = _
      rw [jsReplaceAll_pat_append colonEnt [':'] (by decide), ihh]
      rfl
    by_cases h3 : c = '{'
    · subst h3
      show jsReplaceAll colonEnt [':']
        ('&' :: (['#', '1', '2', '3', ';'] ++ expand escAttr1 cs)) = _
      rw [jsReplaceAll_cons_nomatch colonEnt [':'] '&'
        (['#', '1', '2', '3', ';'] ++ expand escAttr1 cs) (by rfl)]
      rw [jsReplaceAll_skip' colonEnt [':'] '&' ['#', '5', '8', ';'] rfl
        ['#', '1', '2', '3', ';'] (by decide) (expand escAttr1 cs)]
      rw [ihh]
      rfl
    by_cases h4 : c = '}'
    · subst h4
      show jsReplaceAll colonEnt [':']
        ('&' :: (['#', '1', '2', '5', ';'] ++ expand escAttr1 cs)) = _
      rw [jsReplaceAll_cons_nomatch colonEnt [':'] '&'
        (['#', '1', '2', '5', ';'] ++ expand escAttr1 cs) (by rfl)]
      rw [jsReplaceAll_skip' colonEnt [':'] '&' ['#', '5', '8', ';'] rfl
        ['#', '1', '2', '5', ';'] (by decide) (expand escAttr1 cs)]
      rw [ihh]
      rfl
    · have hexp : expand escAttr1 (c :: cs) = c :: expand escAttr1 cs := by
        simp [expand, escAttr1, h2, h3, h4]
      rw [hexp]
      rw [jsReplaceAll_cons_nomatch colonEnt [':'] c (expand escAttr1 cs)
        (stripPre_ne_head (fun he => hc he.symm) _ _)]
      rw [ihh]
      have hexp2 : expand escAttr2 (c :: cs) = c :: expand escAttr2 cs := by
        simp [expand, escAttr2, h3, h4]
      rw [hexp2]

theorem unesc_pass3 (s : Str) (h : '&' ∉ s) :
    jsReplaceAll lbraceEnt ['{'] (expand escAttr2 s) = expand escAttr3 s := by
  induction s with
  | nil => rfl
  | cons c cs ih =>
    have hcs : '&' ∉ cs := fun hm => h (List.mem_cons_of_mem c hm)
    have hc : ¬ c = '&' := fun he => h (by rw [he]; exact List.mem_cons_self _ _)
    have ihh := ih hcs
    by_cases h3 : c = '{'
    · subst h3
      show jsReplaceAll lbraceEnt ['{'] (lbraceEnt ++ expand escAttr2 cs) = _
      rw [jsReplaceAll_pat_append lbraceEnt ['{'] (by decide), ihh]
      rfl
    by_cases h4 : c = '}'
    · subst h4
      show jsReplaceAll lbraceEnt ['{']
        ('&' :: (['#', '1', '2', '5', ';'] ++ expand escAttr2 cs)) = _
      rw [jsReplaceAll_cons_nomatch lbraceEnt ['{'] '&'
        (['#', '1', '2', '5', ';'] ++ expand escAttr2 cs) (by rfl)]
      rw [jsReplaceAll_skip' lbraceEnt ['{'] '&' ['#', '1', '2', '3', ';'] rfl
        ['#', '1', '2', '5', ';'] (by decide) (expand escAttr2 cs)]
      rw [ihh]
      rfl
    · have hexp : expand escAttr2 (c :: cs) = c :: expand escAttr2 cs := by
        simp [expand, escAttr2, h3, h4]
      rw [hexp]
      rw [jsReplaceAll_cons_nomatch lbraceEnt ['{'] c (expand escAttr2 cs)
        (stripPre_ne_head (fun he => hc he.symm) _ _)]
      rw [ihh]
      have hexp3 : expand escAttr3 (c :: cs) = c :: expand escAttr3 cs := by
        simp [expand, escAttr3, h4]
      rw [hexp3]

theorem unesc_pass4 (s : Str) (h : '&' ∉ s) :
    jsReplaceAll rbraceEnt ['}'] (expand escAttr3 s) = s := by
  induction s with
  | nil => rfl
  | cons c cs ih =>
    have hcs : '&' ∉ cs := fun hm => h (List.mem_cons_of_mem c hm)
    have hc : ¬ c = '&' := fun he => h (by rw [he]; exact List.mem_cons_self _ _)
    have ihh := ih hcs
    by_cases h4 : c = '}'
    · subst h4
      show jsReplaceAll rbraceEnt ['}'] (rbraceEnt ++ expand escAttr3 cs) = _
      rw [jsReplaceAll_pat_append rbraceEnt ['}'] (by decide), ihh]
      rfl
    · have hexp : expand escAttr3 (c :: cs) = c :: expand escAttr3 cs := by
        simp [expand, escAttr3, h4]
      rw [hexp]
      rw [jsReplaceAll_cons_nomatch rbraceEnt ['}'] c (expand escAttr3 cs)
        (stripPre_ne_head (fun he => hc he.symm) _ _)]
      rw [ihh]

/-- The four decode replacements undo the four encode replacements on any
ampersand-free string. -/
theorem codec_unescape_escape (s : Str) (h : '&' ∉ s) :
    jsReplaceAll rbraceEnt ['}']
      (jsReplaceAll lbraceEnt ['{']
        (jsReplaceAll colonEnt [':']
          (jsReplaceAll quotEnt ['"']
            (jsReplaceAll ['}'] rbraceEnt
              (jsReplaceAll ['{'] lbraceEnt
                (jsReplaceAll [':'] colonEnt
                  (jsReplaceAll ['"'] quotEnt s))))))) = s := by
  rw [esc_eq_expand, unesc_pass1 s h, unesc_pass2 s h, unesc_pass3 s h, unesc_pass4 s h]

/-! ### Parser correctness: `JSON.parse` inverts `JSON.stringify` -/

theorem skipWs_cons (c : Char) (cs : Str) (h : isJsonWs c = false) :
    skipWs (c :: cs) = c :: cs := by
  simp [skipWs, h]

theorem natDigitsGo_spec : ∀ (f n : Nat), n ≤ f → ofDigitsLE (natDigitsGo f n) = n := by
  intro f
  induction f with
  | zero => intro n h; interval_cases n; rfl
  | succ f ih =>
    intro n h
    cases n with
    | zero => rfl
    | succ n =>
      have hd : (n + 1) / 10 ≤ f := by omega
      simp [natDigitsGo, ofDigitsLE, ih _ hd]
      omega

theorem natDigitsGo_lt10 : ∀ (f n : Nat), ∀ d ∈ natDigitsGo f n, d < 10 := by
  intro f
  induction f with
  | zero => intro n d hd; simp [natDigitsGo] at hd
  | succ f ih =>
    intro n d hd
    cases n with
    | zero => simp [natDigitsGo] at hd
    | succ n =>
      simp only [natDigitsGo, List.mem_cons] at hd
      rcases hd with h1 | h2
      · omega
      · exact ih _ d h2

theorem natDigitsGo_ne_nil : ∀ (f n : Nat), 1 ≤ n → n ≤ f → natDigitsGo f n ≠ [] := by
  intro f n h1 h2
  cases f with
  | zero => omega
  | succ f =>
    cases n with
    | zero => omega
    | succ n => simp [natDigitsGo]

theorem isDigitCh_digitChar (d : Nat) (h : d < 10) :
    isDigitCh (Char.ofNat (48 + d)) = true := by
  interval_cases d <;> decide

theorem digitChar_toNat (d : Nat) (h : d < 10) : (Char.ofNat (48 + d)).toNat = 48 + d := by
  interval_cases d <;> decide

theorem digitsVal_append_digit (xs : Str) (c : Char) :
    digitsVal (xs ++ [c]) = 10 * digitsVal xs + (c.toNat - 48) := by
  simp [digitsVal, List.foldl_append]

theorem digitsVal_rev_map (l : List Nat) (hl : ∀ d ∈ l, d < 10) :
    digitsVal ((l.map (fun d => Char.ofNat (48 + d))).reverse) = ofDigitsLE l := by
  induction l with
  | nil => rfl
  | cons d ds ih =>
    simp only [List.map_cons, List.reverse_cons, digitsVal_append_digit, ofDigitsLE]
    rw [ih (fun x hx => hl x (List.mem_cons_of_mem d hx))]
    rw [digitChar_toNat d (hl d (List.mem_cons_self d ds))]
    omega

theorem digitsVal_natToChars (n : Nat) : digitsVal (natToChars n) = n := by
  by_cases h : n = 0
  · subst h; decide
  · unfold natToChars
    rw [if_neg h]
    rw [digitsVal_rev_map (natDigitsGo n n) (natDigitsGo_lt10 n n)]
    exact natDigitsGo_spec n n (Nat.le_refl n)

theorem natToChars_all_digits (n : Nat) : ∀ c ∈ natToChars n, isDigitCh c = true := by
  intro c hc
  by_cases h : n = 0
  · subst h
    simp [natToChars] at hc
    subst hc
    decide
  · unfold natToChars at hc
    rw [if_neg h] at hc
    rw [List.mem_reverse] at hc
    obtain ⟨d, hd, hdc⟩ := List.mem_map.mp hc
    subst hdc
    exact isDigitCh_digitChar d (natDigitsGo_lt10 n n d hd)

theorem natToChars_ne_nil (n : Nat) : natToChars n ≠ [] := by
  by_cases h : n = 0
  · subst h; decide
  · unfold natToChars
    rw [if_neg h]
    simp only [ne_eq, List.reverse_eq_nil_iff, List.map_eq_nil_iff]
    exact natDigitsGo_ne_nil n n (by omega) (Nat.le_refl n)

theorem stopOk_not_digit (rest : Str) (h : stopOk rest) :
    spanDigits rest = ([], rest) := by
  rcases h with h1 | ⟨c, t, rfl, hc⟩
  · subst h1; rfl
  · rcases hc with rfl | rfl | rfl <;> rfl

theorem spanDigits_append (ds : Str) :
    (∀ c ∈ ds, isDigitCh c = true) → ∀ rest : Str, stopOk rest →
      spanDigits (ds ++ rest) = (ds, rest) := by
  induction ds with
  | nil => intro _ rest h; simpa using stopOk_not_digit rest h
  | cons c cs ih =>
    intro hds rest h
    have hc := hds c (List.mem_cons_self c cs)
    simp only [List.cons_append, spanDigits, hc, if_true]
    show (c :: (spanDigits (cs ++ rest)).1, (spanDigits (cs ++ rest)).2) = (c :: cs, rest)
    rw [ih (fun x hx => hds x (List.mem_cons_of_mem c hx)) rest h]

theorem parseNumBody_natToChars (n : Nat) (rest : Str) (h : stopOk rest) :
    parseNumBody (natToChars n ++ rest) = some (n, rest) := by
  unfold parseNumBody
  rw [spanDigits_append (natToChars n) (natToChars_all_digits n) rest h]
  cases hsh : natToChars n with
  | nil => exact absurd hsh (natToChars_ne_nil n)
  | cons d ds =>
    have hv : digitsVal (d :: ds) = n := by rw [← hsh]; exact digitsVal_natToChars n
    show some (digitsVal (d :: ds), rest) = some (n, rest)
    rw [hv]

theorem isDigitCh_ne_minus (c : Char) (h : isDigitCh c = true) : ¬ c = '-' := by
  intro he
  subst he
  simp [isDigitCh] at h

theorem parseNum_intToChars (n : Int) (rest : Str) (h : stopOk rest) :
    parseNum (intToChars n ++ rest) = some (Json.num n, rest) := by
  unfold intToChars
  by_cases hn : n < 0
  · rw [if_pos hn]
    show ((parseNumBody (natToChars n.natAbs ++ rest)).map
        (fun p => (Json.num (-(p.1 : Int)), p.2))) = some (Json.num n, rest)
    rw [parseNumBody_natToChars n.natAbs rest h]
    have hv : (-(n.natAbs : Int)) = n := by omega
    show some (Json.num (-(n.natAbs : Int)), rest) = some (Json.num n, rest)
    rw [hv]
  · rw [if_neg hn]
    cases hsh : natToChars n.natAbs with
    | nil => exact absurd hsh (natToChars_ne_nil n.natAbs)
    | cons d ds =>
      have hd : isDigitCh d = true := by
        apply natToChars_all_digits n.natAbs
        rw [hsh]
        exact List.mem_cons_self d ds
      have hdm : ¬ d = '-' := isDigitCh_ne_minus d hd
      show parseNum (d :: (ds ++ rest)) = _
      simp only [parseNum]
      rw [if_neg hdm, ← List.cons_append, ← hsh]
      rw [parseNumBody_natToChars n.natAbs rest h]
      have hv : ((n.natAbs : Int)) = n := by omega
      show some (Json.num ((n.natAbs : Int)), rest) = some (Json.num n, rest)
      rw [hv]

theorem psbEscB (tail : Str) : parseStrBody ('\\' :: 'b' :: tail)
    = (parseStrBody tail).map (fun p => (Char.ofNat 8 :: p.1, p.2)) := by
  conv_lhs => unfold parseStrBody
  simp

theorem psbEscT (tail : Str) : parseStrBody ('\\' :: 't' :: tail)
    = (parseStrBody tail).map (fun p => (Char.ofNat 9 :: p.1, p.2)) := by
  conv_lhs => unfold parseStrBody
  simp

theorem psbEscN (tail : Str) : parseStrBody ('\\' :: 'n' :: tail)
    = (parseStrBody tail).map (fun p => (Char.ofNat 10 :: p.1, p.2)) := by
  conv_lhs => unfold parseStrBody
  simp

theorem psbEscF (tail : Str) : parseStrBody ('\\' :: 'f' :: tail)
    = (parseStrBody tail).map (fun p => (Char.ofNat 12 :: p.1, p.2)) := by
  conv_lhs => unfold parseStrBody
  simp

theorem psbEscR (tail : Str) : parseStrBody ('\\' :: 'r' :: tail)
    = (parseStrBody tail).map (fun p => (Char.ofNat 13 :: p.1, p.2)) := by
  conv_lhs => unfold parseStrBody
  simp

theorem parseStrBody_escChar_lt (n : Nat) (hn : n < 32) (tail : Str) :
    parseStrBody (escChar (Char.ofNat n) ++ tail)
      = (parseStrBody tail).map (fun p => (Char.ofNat n :: p.1, p.2)) := by
  interval_cases n <;>
    first
      | rfl
      | exact psbEscB tail
      | exact psbEscT tail
      | exact psbEscN tail
      | exact psbEscF tail
      | exact psbEscR tail

theorem parseStrBody_escChar (c : Char) (tail : Str) :
    parseStrBody (escChar c ++ tail)
      = (parseStrBody tail).map (fun p => (c :: p.1, p.2)) := by
  by_cases hlt : c.toNat < 32
  · have h := parseStrBody_escChar_lt c.toNat hlt tail
    rwa [Char.ofNat_toNat] at h
  · by_cases h1 : c = '"'
    · subst h1
      show parseStrBody ('\\' :: '"' :: tail) = _
      conv_lhs => unfold parseStrBody
      simp
    by_cases h2 : c = '\\'
    · subst h2
      show parseStrBody ('\\' :: '\\' :: tail) = _
      conv_lhs => unfold parseStrBody
      simp
    have h3 : ¬ c = Char.ofNat 8 := fun he => hlt (by rw [he]; decide)
    have h4 : ¬ c = Char.ofNat 9 := fun he => hlt (by rw [he]; decide)
    have h5 : ¬ c = Char.ofNat 10 := fun he => hlt (by rw [he]; decide)
    have h6 : ¬ c = Char.ofNat 12 := fun he => hlt (by rw [he]; decide)
    have h7 : ¬ c = Char.ofNat 13 := fun he => hlt (by rw [he]; decide)
    have he : escChar c = [c] := by
      unfold escChar
      rw [if_neg h1, if_neg h2, if_neg h3, if_neg h4, if_neg h5, if_neg h6, if_neg h7,
        if_neg hlt]
    rw [he]
    show parseStrBody (c :: tail) = _
    conv_lhs => unfold parseStrBody
    rw [if_neg h1, if_neg h2, if_neg hlt]

theorem parseStrBody_expand (s : Str) : ∀ rest : Str,
    parseStrBody (expand escChar s ++ ('"' :: rest)) = some (s, rest) := by
  induction s with
  | nil =>
    intro rest
    show parseStrBody ('"' :: rest) = some ([], rest)
    conv_lhs => unfold parseStrBody
    simp
  | cons c cs ih =>
    intro rest
    show parseStrBody ((escChar c ++ expand escChar cs) ++ ('"' :: rest)) = _
    rw [List.append_assoc, parseStrBody_escChar, ih rest]
    rfl

theorem digit_facts (c : Char) (h : isDigitCh c = true) :
    isJsonWs c = false ∧ ¬c = 'n' ∧ ¬c = 't' ∧ ¬c = 'f' ∧ ¬c = '"' ∧ ¬c = '['
      ∧ ¬c = '{' ∧ ¬c = ']' ∧ ¬c = '}' := by
  have hne : ∀ x : Char, isDigitCh x = false → ¬ c = x := by
    intro x hx he
    rw [he, hx] at h
    exact absurd h (by decide)
  refine ⟨?_, hne 'n' (by decide), hne 't' (by decide), hne 'f' (by decide),
    hne '"' (by decide), hne '[' (by decide), hne '{' (by decide),
    hne ']' (by decide), hne '}' (by decide)⟩
  simp only [isJsonWs, decide_eq_false_iff_not]
  rintro (he | he | he | he)
  exacts [hne ' ' (by decide) he, hne (Char.ofNat 9) (by decide) he,
    hne (Char.ofNat 10) (by decide) he, hne (Char.ofNat 13) (by decide) he]

theorem stringify_head (v : Json) : ∃ d t, stringify v = d :: t
    ∧ isJsonWs d = false ∧ ¬ d = ']' ∧ ¬ d = '}' := by
  match v with
  | .null => exact ⟨'n', _, rfl, by decide, by decide, by decide⟩
  | .bool true => exact ⟨'t', _, rfl, by decide, by decide, by decide⟩
  | .bool false => exact ⟨'f', _, rfl, by decide, by decide, by decide⟩
  | .str s => exact ⟨'"', _, rfl, by decide, by decide, by decide⟩
  | .arr xs => exact ⟨'[', _, rfl, by decide, by decide, by decide⟩
  | .obj ms => exact ⟨'{', _, rfl, by decide, by decide, by decide⟩
  | .num n =>
    by_cases hn : n < 0
    · refine ⟨'-', natToChars n.natAbs, ?_, by decide, by decide, by decide⟩
      show intToChars n = _
      rw [intToChars, if_pos hn]
    · cases hsh : natToChars n.natAbs with
      | nil => exact absurd hsh (natToChars_ne_nil n.natAbs)
      | cons d ds =>
        have hd : isDigitCh d = true :=
          natToChars_all_digits n.natAbs d (by rw [hsh]; exact List.mem_cons_self d ds)
        obtain ⟨hws, _, _, _, _, _, _, hr1, hr2⟩ := digit_facts d hd
        refine ⟨d, ds, ?_, hws, hr1, hr2⟩
        show intToChars n = _
        rw [intToChars, if_neg hn, hsh]

theorem itemsTail_stopOk (xs : JsonItems) (rest : Str) : stopOk (itemsTail xs ++ rest) := by
  cases xs with
  | nil => exact Or.inr ⟨']', rest, rfl, by decide⟩
  | cons v vs => exact Or.inr ⟨',', _, rfl, by decide⟩

theorem membersTail_stopOk (ms : JsonMembers) (rest : Str) :
    stopOk (membersTail ms ++ rest) := by
  cases ms with
  | nil => exact Or.inr ⟨'}', rest, rfl, by decide⟩
  | cons k v ms2 => exact Or.inr ⟨',', _, rfl, by decide⟩

theorem stringifyItems_itemsTail : ∀ (xs : JsonItems) (x : Json) (r : Str),
    stringifyItems (.cons x xs) ++ (']' :: r) = stringify x ++ (itemsTail xs ++ r)
  | .nil, x, r => by simp [stringifyItems, itemsTail]
  | .cons y ys, x, r => by
    have ih := stringifyItems_itemsTail ys y r
    show (stringify x ++ ',' :: stringifyItems (.cons y ys)) ++ (']' :: r)
        = stringify x ++ (itemsTail (.cons y ys) ++ r)
    rw [List.append_assoc, List.cons_append, ih]
    simp [itemsTail]

theorem stringifyMembers_membersTail : ∀ (ms : JsonMembers) (k : Str) (v : Json) (r : Str),
    stringifyMembers (.cons k v ms) ++ ('}' :: r)
      = (quoteStr k ++ ':' :: stringify v) ++ (membersTail ms ++ r)
  | .nil, k, v, r => by simp [stringifyMembers, membersTail]
  | .cons k2 v2 ms2, k, v, r => by
    have ih := stringifyMembers_membersTail ms2 k2 v2 r
    show ((quoteStr k ++ ':' :: stringify v) ++ ',' :: stringifyMembers (.cons k2 v2 ms2))
          ++ ('}' :: r)
        = (quoteStr k ++ ':' :: stringify v) ++ (membersTail (.cons k2 v2 ms2) ++ r)
    rw [List.append_assoc, List.cons_append, ih]
    simp [membersTail]

theorem stringify_arr_cons (x : Json) (xs : JsonItems) (rest : Str) :
    stringify (.arr (.cons x xs)) ++ rest = '[' :: (stringify x ++ (itemsTail xs ++ rest)) := by
  show ('[' :: (stringifyItems (.cons x xs) ++ [']'])) ++ rest = _
  rw [List.cons_append, List.append_assoc, List.singleton_append, stringifyItems_itemsTail]

theorem stringify_obj_cons (k : Str) (v : Json) (ms : JsonMembers) (rest : Str) :
    stringify (.obj (.cons k v ms)) ++ rest
      = '{' :: ((quoteStr k ++ ':' :: stringify v) ++ (membersTail ms ++ rest)) := by
  show ('{' :: (stringifyMembers (.cons k v ms) ++ ['}'])) ++ rest = _
  rw [List.cons_append, List.append_assoc, List.singleton_append, stringifyMembers_membersTail]

theorem parseMember_step (k : Str) (v : Json) (f2 : Nat) (rest2 : Str)
    (hv : parseV f2 (stringify v ++ rest2) = some (v, rest2)) :
    parseMember (f2 + 1) ((quoteStr k ++ ':' :: stringify v) ++ rest2)
      = some ((k, v), rest2) := by
  have hin : (quoteStr k ++ ':' :: stringify v) ++ rest2
      = '"' :: (expand escChar k ++ ('"' :: (':' :: (stringify v ++ rest2)))) := by
    simp [quoteStr]
  rw [hin]
  have hps := parseStrBody_expand k (':' :: (stringify v ++ rest2))
  have w1 : isJsonWs '"' = false := by decide
  have w2 : isJsonWs ':' = false := by decide
  simp [parseMember, skipWs, w1, w2, hps, hv]

mutual

theorem parseV_stringify : ∀ (v : Json) (fuel : Nat) (rest : Str),
    stopOk rest → (stringify v ++ rest).length < fuel →
    parseV fuel (stringify v ++ rest) = some (v, rest) := by
  intro v fuel rest
  match v, fuel with
  | _, 0 =>
    intro _ hlen
    exact absurd hlen (Nat.not_lt_zero _)
  | .null, f + 1 =>
    intro _ _
    rfl
  | .bool true, f + 1 =>
    intro _ _
    rfl
  | .bool false, f + 1 =>
    intro _ _
    rfl
  | .str s, f + 1 =>
    intro hstop hlen
    have hin : stringify (Json.str s) ++ rest = '"' :: (expand escChar s ++ ('"' :: rest)) := by
      show quoteStr s ++ rest = _
      simp [quoteStr]
    rw [hin]
    show (parseStrBody (expand escChar s ++ ('"' :: rest))).map (fun p => (Json.str p.1, p.2))
        = some (Json.str s, rest)
    rw [parseStrBody_expand]
    rfl
  | .num n, f + 1 =>
    intro hstop hlen
    by_cases hn : n < 0
    · have hin : stringify (Json.num n) ++ rest = '-' :: (natToChars n.natAbs ++ rest) := by
        show intToChars n ++ rest = _
        rw [intToChars, if_pos hn, List.cons_append]
      rw [hin]
      show parseNum ('-' :: (natToChars n.natAbs ++ rest)) = some (Json.num n, rest)
      have h2 : '-' :: (natToChars n.natAbs ++ rest) = intToChars n ++ rest := by
        rw [intToChars, if_pos hn, List.cons_append]
      rw [h2]
      exact parseNum_intToChars n rest hstop
    · cases hsh : natToChars n.natAbs with
      | nil => exact absurd hsh (natToChars_ne_nil n.natAbs)
      | cons d ds =>
        have hd : isDigitCh d = true :=
          natToChars_all_digits n.natAbs d (by rw [hsh]; exact List.mem_cons_self d ds)
        obtain ⟨hws, hn1, hn2, hn3, hn4, hn5, hn6, _, _⟩ := digit_facts d hd
        have hin : stringify (Json.num n) ++ rest = d :: (ds ++ rest) := by
          show intToChars n ++ rest = _
          rw [intToChars, if_neg hn, hsh, List.cons_append]
        rw [hin]
        simp only [parseV]
        rw [skipWs_cons d _ hws]
        simp only []
        rw [if_neg hn1, if_neg hn2, if_neg hn3, if_neg hn4, if_neg hn5, if_neg hn6]
        have h2 : d :: (ds ++ rest) = intToChars n ++ rest := by
          rw [intToChars, if_neg hn, hsh, List.cons_append]
        rw [h2]
        exact parseNum_intToChars n rest hstop
  | .arr .nil, f + 1 =>
    intro _ _
    rfl
  | .arr (.cons x xs), f + 1 =>
    intro hstop hlen
    rw [stringify_arr_cons] at hlen ⊢
    obtain ⟨d, t, hdt, hws, hne1, hne2⟩ := stringify_head x
    have hlx : (stringify x ++ (itemsTail xs ++ rest)).length < f := by
      simp only [List.length_cons, List.length_append] at hlen ⊢
      omega
    have hltl : (itemsTail xs ++ rest).length < f := by
      rw [hdt] at hlx
      simp only [List.length_cons, List.length_append] at hlx ⊢
      omega
    have hx := parseV_stringify x f (itemsTail xs ++ rest) (itemsTail_stopOk xs rest) hlx
    have ht := parseArrTail_itemsTail xs f rest hstop hltl
    simp only [parseV]
    rw [skipWs_cons '[' _ (by decide)]
    simp only []
    rw [if_neg (by decide : ¬ ('[':Char) = 'n'), if_neg (by decide : ¬ ('[':Char) = 't'),
      if_neg (by decide : ¬ ('[':Char) = 'f'), if_neg (by decide : ¬ ('[':Char) = '"'),
      if_true]
    rw [hdt]
    simp only [List.cons_append]
    rw [skipWs_cons d _ hws]
    split
    · rename_i rest2 heq
      injection heq with hh _
      exact absurd hh hne1
    · rw [show d :: (t ++ (itemsTail xs ++ rest)) = stringify x ++ (itemsTail xs ++ rest) from
        by rw [hdt, List.cons_append]]
      rw [hx]
      simp only []
      rw [ht]
  | .obj .nil, f + 1 =>
    intro _ _
    rfl
  | .obj (.cons k v ms), f + 1 =>
    intro hstop hlen
    rw [stringify_obj_cons] at hlen ⊢
    obtain ⟨d, t, hdt, _, _, _⟩ := stringify_head v
    have hq : (quoteStr k).length = (expand escChar k).length + 2 := by
      simp [quoteStr]
    have hsv : 1 ≤ (stringify v).length := by rw [hdt]; simp
    have hmt : 1 ≤ (membersTail ms).length := by cases ms <;> simp [membersTail]
    simp only [List.length_cons, List.length_append] at hlen
    obtain ⟨f2, rfl⟩ : ∃ f2, f = f2 + 1 := ⟨f - 1, by omega⟩
    have hlv : (stringify v ++ (membersTail ms ++ rest)).length < f2 := by
      simp only [List.length_append]
      omega
    have hlm : (membersTail ms ++ rest).length < f2 + 1 := by
      simp only [List.length_append]
      omega
    have hv := parseV_stringify v f2 (membersTail ms ++ rest) (membersTail_stopOk ms rest) hlv
    have hm := parseMember_step k v f2 (membersTail ms ++ rest) hv
    have ht := parseObjTail_membersTail ms (f2 + 1) rest hstop hlm
    simp only [parseV]
    rw [skipWs_cons '{' _ (by decide)]
    simp only []
    rw [if_neg (by decide : ¬ ('{':Char) = 'n'), if_neg (by decide : ¬ ('{':Char) = 't'),
      if_neg (by decide : ¬ ('{':Char) = 'f'), if_neg (by decide : ¬ ('{':Char) = '"'),
      if_neg (by decide : ¬ ('{':Char) = '['), if_true]
    have hq2 : (quoteStr k ++ ':' :: stringify v) ++ (membersTail ms ++ rest)
        = '"' :: ((expand escChar k ++ ['"']) ++ (':' :: stringify v ++ (membersTail ms ++ rest))) := by
      simp [quoteStr]
    rw [hq2]
    rw [skipWs_cons '"' _ (by decide)]
    split
    · rename_i rest2 heq
      injection heq with hh _
      exact absurd hh (by decide)
    · rw [← hq2]
      rw [hm]
      simp only []
      rw [ht]

theorem parseArrTail_itemsTail : ∀ (xs : JsonItems) (fuel : Nat) (rest : Str),
    stopOk rest → (itemsTail xs ++ rest).length < fuel →
    parseArrTail fuel (itemsTail xs ++ rest) = some (xs, rest) := by
  intro xs fuel rest
  match xs, fuel with
  | _, 0 =>
    intro _ hlen
    exact absurd hlen (Nat.not_lt_zero _)
  | .nil, f + 1 =>
    intro _ _
    rfl
  | .cons x xs2, f + 1 =>
    intro hstop hlen
    have hin : itemsTail (.cons x xs2) ++ rest
        = ',' :: (stringify x ++ (itemsTail xs2 ++ rest)) := by
      show (',' :: (stringify x ++ itemsTail xs2)) ++ rest = _
      rw [List.cons_append, List.append_assoc]
    rw [hin] at hlen ⊢
    obtain ⟨d, t, hdt, _, _, _⟩ := stringify_head x
    have hlx : (stringify x ++ (itemsTail xs2 ++ rest)).length < f := by
      simp only [List.length_cons, List.length_append] at hlen ⊢
      omega
    have hlt2 : (itemsTail xs2 ++ rest).length < f := by
      rw [hdt] at hlx
      simp only [List.length_cons, List.length_append] at hlx ⊢
      omega
    have hx := parseV_stringify x f (itemsTail xs2 ++ rest) (itemsTail_stopOk xs2 rest) hlx
    have ht := parseArrTail_itemsTail xs2 f rest hstop hlt2
    simp only [parseArrTail]
    rw [skipWs_cons ',' _ (by decide)]
    simp only []
    rw [if_neg (by decide : ¬ (',':Char) = ']'), if_true]
    rw [hx]
    simp only []
    rw [ht]

theorem parseObjTail_membersTail : ∀ (ms : JsonMembers) (fuel : Nat) (rest : Str),
    stopOk rest → (membersTail ms ++ rest).length < fuel →
    parseObjTail fuel (membersTail ms ++ rest) = some (ms, rest) := by
  intro ms fuel rest
  match ms, fuel with
  | _, 0 =>
    intro _ hlen
    exact absurd hlen (Nat.not_lt_zero _)
  | .nil, f + 1 =>
    intro _ _
    rfl
  | .cons k v ms2, f + 1 =>
    intro hstop hlen
    have hin : membersTail (.cons k v ms2) ++ rest
        = ',' :: ((quoteStr k ++ ':' :: stringify v) ++ (membersTail ms2 ++ rest)) := by
      show (',' :: ((quoteStr k ++ ':' :: stringify v) ++ membersTail ms2)) ++ rest = _
      rw [List.cons_append, List.append_assoc]
    rw [hin] at hlen ⊢
    obtain ⟨d, t, hdt, _, _, _⟩ := stringify_head v
    have hq : (quoteStr k).length = (expand escChar k).length + 2 := by
      simp [quoteStr]
    have hsv : 1 ≤ (stringify v).length := by rw [hdt]; simp
    have hmt : 1 ≤ (membersTail ms2).length := by cases ms2 <;> simp [membersTail]
    simp only [List.length_cons, List.length_append] at hlen
    obtain ⟨f2, rfl⟩ : ∃ f2, f = f2 + 1 := ⟨f - 1, by omega⟩
    have hlv : (stringify v ++ (membersTail ms2 ++ rest)).length < f2 := by
      simp only [List.length_append]
      omega
    have hlm : (membersTail ms2 ++ rest).length < f2 + 1 := by
      simp only [List.length_append]
      omega
    have hv := parseV_stringify v f2 (membersTail ms2 ++ rest) (membersTail_stopOk ms2 rest) hlv
    have hm := parseMember_step k v f2 (membersTail ms2 ++ rest) hv
    have ht := parseObjTail_membersTail ms2 (f2 + 1) rest hstop hlm
    rw [parseObjTail]
    rw [skipWs_cons ',' _ (by decide)]
    simp only []
    rw [if_neg (by decide : ¬ (',':Char) = '}'), if_true]
    rw [hm]
    simp only []
    rw [ht]

end

theorem jsonParse_stringify (v : Json) : jsonParse (stringify v) = some v := by
  have h := parseV_stringify v ((stringify v).length + 1) [] (Or.inl rfl)
    (by simp)
  rw [List.append_nil] at h
  unfold jsonParse
  rw [h]
  rfl

/-- C1 (amended) — the attribute codec round-trips on every JSON value whose
`JSON.stringify` serialization contains no ampersand: `escapedStringToJson`
of `jsonToEscapedString` yields the value back, and re-encoding anything the
decode yields reproduces the encoded string. -/
theorem claim_C1_amended (v : Json) (h : '&' ∉ stringify v) :
    escapedStringToJson (jsonToEscapedString v) = some v
      ∧ ∀ w, escapedStringToJson (jsonToEscapedString v) = some w →
          jsonToEscapedString w = jsonToEscapedString v := by
  have h1 : escapedStringToJson (jsonToEscapedString v) = some v := by
    unfold jsonToEscapedString escapedStringToJson
    rw [codec_unescape_escape (stringify v) h]
    exact jsonParse_stringify v
  refine ⟨h1, ?_⟩
  intro w hw
  rw [h1] at hw
  injection hw with h2
  rw [← h2]

/-- C1 — counterexample to the claim as stated: for the string value
`"&#58;"` the decode of the encode yields the string `":"` instead of the
original value, and for the string value `"&quot;"` the decode of the encode
fails with a SyntaxError (`none`), so the round trip does not hold for every
JSON-representable value. -/
theorem claim_C1_counterexample :
    escapedStringToJson (jsonToEscapedString c1CexVal) = some (Json.str [':'])
      ∧ c1CexVal ≠ Json.str [':']
      ∧ escapedStringToJson (jsonToEscapedString c1CexVal2) = none := by
  decide

/-- C1 — witness: the amended round trip at a nested object whose keys and
string values contain quotes, colons and braces (and no ampersand). -/
theorem claim_C1_witness :
    '&' ∉ stringify c1WitnessVal
      ∧ escapedStringToJson (jsonToEscapedString c1WitnessVal) = some c1WitnessVal :=
  ⟨by decide, (claim_C1_amended c1WitnessVal (by decide)).1⟩

end PnP
